import Mathlib

/-!
Verification development for the rustman-cli-tools repository.

The Rust sources under `src/` are shallowly embedded below:
* `f64` values are modelled as exact rationals (`ℚ`); where the code's
  behaviour on NaN matters (`nearest_index`, `linear_resample_array`),
  values are modelled as `OQ := Option ℚ` with `none` playing the role
  of NaN and the usual IEEE propagation / comparison rules.
* `usize` arithmetic that can wrap in release builds is modelled with an
  explicit `% 2^64`.
* fallible Rust functions returning `anyhow::Result` are modelled with
  `Option` / dedicated result inductives; a Rust panic (index out of
  bounds, arithmetic overflow in debug) is modelled by a distinguished
  `panic` outcome where a claim depends on it.
* in-place mutation (`&mut`) is modelled by explicit state passing: a
  transformer's `transform` returns the new state together with a flag
  telling whether it returned an error (the state is kept in that case,
  like the Rust `&mut` borrow).

Definitions are named after the Rust items they embed.
-/

namespace Rustman

/-- Strings are modelled as lists of characters (`str` ≅ `List Char`). -/
abbrev Str := List Char

/-- The provenance delimiter substring `"---"` used by
`Pipeline::from_yaml_header` (`common.rs`). -/
def dash3 : Str := ("---").toList

/-- The comment prefix `"# "` removed by `Pipeline::from_yaml_header`. -/
def hashSp : Str := ("# ").toList

/-- `pat.isPrefixOf s` decided with plain equality. -/
def isPre (pat s : Str) : Bool :=
  match pat, s with
  | [], _ => true
  | _ :: _, [] => false
  | p :: ps, c :: cs => p == c && isPre ps cs

/-- `s.contains(pat)` for substrings, scanning left to right
(model of Rust's `str::contains`). -/
def hasSub (pat : Str) : Str → Bool
  | [] => isPre pat []
  | s@(_ :: cs) => isPre pat s || hasSub pat cs

/-- Rust's `str::split("---")`: leftmost, non-overlapping occurrences. -/
def splitD3 : Str → List Str
  | '-' :: '-' :: '-' :: rest => [] :: splitD3 rest
  | [] => [[]]
  | c :: cs =>
    match splitD3 cs with
    | [] => [[c]]
    | chunk :: rest => (c :: chunk) :: rest

/-- Rust's `str::split("\n")` (used to model line-wise YAML parsing). -/
def splitNl : Str → List Str
  | [] => [[]]
  | c :: cs =>
    if c = '\n' then [] :: splitNl cs
    else
      match splitNl cs with
      | [] => [[c]]
      | chunk :: rest => (c :: chunk) :: rest

/-- `intercalate "\n"`: inverse direction of `splitNl`. -/
def joinNl : List Str → Str
  | [] => []
  | [l] => l
  | l :: ls => l ++ '\n' :: joinNl ls

/-- Rust's `str::replace("# ", "")`: remove every (leftmost,
non-overlapping) occurrence of `"# "`. -/
def removeHashSp : Str → Str
  | '#' :: ' ' :: rest => removeHashSp rest
  | [] => []
  | c :: cs => c :: removeHashSp cs

/-- The whitespace characters relevant to the strings the program
produces (model of Rust's `str::trim`). -/
def isWs (c : Char) : Bool := c = ' ' || c = '\n' || c = '\t' || c = '\r'

/-- Rust's `str::trim`. -/
def trimStr (s : Str) : Str :=
  ((s.dropWhile isWs).reverse.dropWhile isWs).reverse

/-! ## `f64` with NaN

`OQ` models an `f64` that is either NaN (`none`) or a finite value.
`nearest_index` and `linear_resample_array` depend on NaN behaviour. -/

/-- A possibly-NaN double: `none` is NaN, `some q` a finite value. -/
abbrev OQ := Option ℚ

/-- IEEE subtraction: NaN propagates. -/
def OQ.sub : OQ → OQ → OQ
  | some a, some b => some (a - b)
  | _, _ => none

/-- IEEE `abs`: NaN propagates. -/
def OQ.abs : OQ → OQ
  | some a => some |a|
  | none => none

/-- IEEE multiplication: NaN propagates (finite rationals cannot
overflow in the model). -/
def OQ.mul : OQ → OQ → OQ
  | some a, some b => some (a * b)
  | _, _ => none

/-- IEEE addition: NaN propagates. -/
def OQ.add : OQ → OQ → OQ
  | some a, some b => some (a + b)
  | _, _ => none

/-- IEEE division as used by `lininterp`: NaN propagates; division by
zero (which `f64` turns into an infinity or NaN) is mapped to NaN — the
embedded call sites only divide by nonzero denominators. -/
def OQ.div : OQ → OQ → OQ
  | some a, some b => if b = 0 then none else some (a / b)
  | _, _ => none

/-- IEEE `>=` as a total Bool: any comparison with NaN is false. -/
def OQ.ge : OQ → OQ → Bool
  | some a, some b => decide (a ≥ b)
  | _, _ => false

/-- IEEE `<` as a total Bool: any comparison with NaN is false. -/
def OQ.lt : OQ → OQ → Bool
  | some a, some b => decide (a < b)
  | _, _ => false

/-- IEEE `==` as a total Bool: any comparison with NaN is false. -/
def OQ.eqb : OQ → OQ → Bool
  | some a, some b => decide (a = b)
  | _, _ => false

/-- `f64::partial_cmp` (`utils.rs`, `nearest_index`): `none` when either
operand is NaN. -/
def partialCmp : OQ → OQ → Option Ordering
  | some a, some b => some (compare a b)
  | _, _ => none

/-- The comparator closure in `nearest_index`:
`xi.partial_cmp(xj).unwrap_or(Greater)`. -/
def nearestCmp (a b : OQ) : Ordering :=
  (partialCmp a b).getD Ordering.gt

/-- `Iterator::min_by` from the Rust standard library: a left fold with
`cmp::min_by` (keep the accumulator unless it compares `Greater`). -/
def minByFold (cmp : α → α → Ordering) : List α → Option α
  | [] => none
  | x :: xs => some (xs.foldl (fun acc y => if cmp acc y = Ordering.gt then y else acc) x)

/-- `nearest_index` (`utils.rs` lines 153–170): index of the element of
`x` whose distance `|x[i] - xi|` is minimal under the
`partial_cmp ... unwrap_or(Greater)` comparator. -/
def nearest_index (x : List OQ) (xi : ℚ) : Option ℕ :=
  (minByFold (fun p q : ℕ × OQ => nearestCmp p.2 q.2)
      ((x.map (fun v => (v.sub (some xi)).abs)).enum)).map
    (fun p => p.1)

/-! ## Despike: mirrored indexing and the sliding-window median
(`transformations/despike.rs`). -/

/-- `MirroredArray2::mirror_index` (`despike.rs` lines 289–299).
Rust `%` on `i32` is truncated remainder, i.e. `Int.tmod`. -/
def mirror_index (idx : ℤ) (numElem : ℕ) : ℕ :=
  let n : ℤ := numElem
  let i : ℤ :=
    if idx ≤ 0 then -(Int.tmod idx n)
    else if idx ≥ n then n - 1 - (Int.tmod idx n)
    else idx
  i.toNat

/-- A 2-D matrix of doubles in row-major order (`ndarray::Array2<f64>`
restricted to the finite values the despike claims use). -/
structure MatQ where
  nrows : ℕ
  ncols : ℕ
  entries : List (List ℚ)
deriving DecidableEq

/-- `MirroredArray2`'s `Index<[i32; 2]>`: both indices are mirrored
before the access. -/
def maGet (m : MatQ) (i j : ℤ) : ℚ :=
  (m.entries.getD (mirror_index i m.nrows) []).getD (mirror_index j m.ncols) 0

/-- The window contents gathered by `median_filter` around pixel
`(i, j)` for window size `w`, in the loop's row-major order; indices are
offset by `-(w/2)` and mirrored at the boundaries. -/
def medianWindow (input : MatQ) (w : ℕ) (i j : ℤ) : List ℚ :=
  (List.range w).flatMap (fun k =>
    (List.range w).map (fun l =>
      maGet input (i + ((k : ℤ) - (w : ℤ) / 2)) (j + ((l : ℤ) - (w : ℤ) / 2))))

/-- Insert into a sorted list (ascending). -/
def insertSorted (a : ℚ) : List ℚ → List ℚ
  | [] => [a]
  | b :: bs => if a ≤ b then a :: b :: bs else b :: insertSorted a bs

/-- Sorting of the window buffer (`median_window_buffer.sort()`): any
correct sort of rationals yields the same ascending list of values. -/
def sortQ : List ℚ → List ℚ
  | [] => []
  | a :: as => insertSorted a (sortQ as)

/-- `median_filter` (`despike.rs` lines 240–264) at one output pixel:
the `w*w` window values are sorted and the element at index
`window_size / 2` of the sorted buffer is returned. -/
def median_filter_at (input : MatQ) (w : ℕ) (i j : ℤ) : ℚ :=
  (sortQ (medianWindow input w i j)).getD (w / 2) 0

/-- `median_filter` over the whole array. -/
def median_filter (input : MatQ) (w : ℕ) : MatQ :=
  { nrows := input.nrows
    ncols := input.ncols
    entries := (List.range input.nrows).map (fun i =>
      (List.range input.ncols).map (fun j =>
        median_filter_at input w (i : ℤ) (j : ℤ))) }

/-- One output pixel of `laplace_convolve` (`despike.rs` lines
179–212): four sub-pixel differences against the mirrored axis
neighbours, keeping only positive values, summed. -/
def laplace_convolve_at (input : MatQ) (i j : ℤ) : ℚ :=
  let ij := maGet input i j
  let im1j := maGet input (i - 1) j
  let ijm1 := maGet input i (j - 1)
  let ip1j := maGet input (i + 1) j
  let ijp1 := maGet input i (j + 1)
  let elems := [2 * ij - ip1j - ijp1, 2 * ij - ip1j - ijm1,
                2 * ij - im1j - ijp1, 2 * ij - im1j - ijm1]
  (elems.filter (fun x => decide (x > 0))).sum

/-! ## Numeric utilities (`utils.rs`). -/

/-- `singletrapz`: area of a single trapezoid. -/
def singletrapz (x0 x1 y0 y1 : ℚ) : ℚ := 1/2 * |x1 - x0| * (y1 + y0)

/-- `lininterp` over finite values.  The division is exact rational
division; every embedded call site has `x0 < x1`, so the `f64`
divide-by-zero cases are not reachable there. -/
def lininterp (x x0 x1 y0 y1 : ℚ) : ℚ :=
  (y1 * (x - x0) + y0 * (x1 - x)) / (x1 - x0)

/-- `linear_resample_array` on finite inputs; `none` models the NaN
written for grid points outside the `xs` range. -/
def linear_resample_array (xs ys grid : List ℚ) : List (Option ℚ) :=
  let segments := (xs.zip ys).zip (xs.tail.zip ys.tail)
  grid.map (fun xi =>
    match segments.find? (fun sg => decide (xi ≥ sg.1.1) && decide (xi < sg.2.1)) with
    | some sg => some (lininterp xi sg.1.1 sg.2.1 sg.1.2 sg.2.2)
    | none =>
      match segments.getLast? with
      | some sg => if xi = sg.2.1 then some sg.2.2 else none
      | none => none)

/-- Outcome of `trapz`: an `anyhow` error return, a value, or a panic
(index out of bounds on an empty array). -/
inductive TrapzResult
  | ok (v : ℚ)
  | error
  | panic
deriving DecidableEq

/-- `2^64`, for the wrapping `usize` subtraction `x.len() - 1`. -/
def U64 : ℕ := 2 ^ 64

/-- The `while j <= n` loop of `trapz` (`utils.rs` lines 63–107) with
the mutable locals (`j`, `left`, `inside_integration_window`, `area`)
threaded explicitly; `lastiter` becomes the early return. -/
def trapzLoop (x y : List ℚ) (n : ℕ) (right : ℚ) :
    ℕ → ℚ → Bool → ℚ → ℚ := fun j left inside area =>
  if _h : j ≤ n then
    let x0 := x.getD (j - 1) 0
    let x1 := x.getD j 0
    let y0 := y.getD (j - 1) 0
    let y1 := y.getD j 0
    if x1 ≤ left then trapzLoop x y n right (j + 1) left inside area
    else
      -- entering the integration window: possibly replace x0 by left,
      -- or move left up to x0
      let e : ℚ × ℚ × ℚ :=
        if inside then (x0, y0, left)
        else if x0 < left then (left, lininterp left x0 x1 y0 y1, left)
        else (x0, y0, x0)
      -- leaving the window: possibly replace x1 by right
      let f : ℚ × ℚ × Bool :=
        if x1 ≥ right then
          (right, if x1 ≠ right then lininterp right e.1 x1 e.2.1 y1 else y1, true)
        else (x1, y1, false)
      let area2 := area + singletrapz e.1 f.1 e.2.1 f.2.1
      if f.2.2 then area2 else trapzLoop x y n right (j + 1) e.2.2 true area2
  else area
termination_by j => n + 1 - j
decreasing_by all_goals omega

/-- `trapz` (`utils.rs` lines 22–109).  `n = x.len() - 1` is the
wrapping `usize` subtraction of a release build; on an empty `x` the
subsequent `x[0]` access panics. -/
def trapz (x y : List ℚ) (left0 right0 : ℚ) (local_baseline : Bool) : TrapzResult :=
  let lr := if left0 < right0 then (left0, right0) else (right0, left0)
  let left := lr.1
  let right := lr.2
  let n := (x.length + (U64 - 1)) % U64
  let ny := (y.length + (U64 - 1)) % U64
  if n ≠ ny then .error
  else if n < 1 then .error
  else if x.length = 0 then .panic
  else if x.getD 0 0 ≥ right ∨ x.getD n 0 ≤ left then .error
  else
    let area0 : Option ℚ :=
      if local_baseline then
        let ysi := linear_resample_array x y [left, right]
        if ysi.any (fun v => v.isNone) then none
        else some (-(singletrapz left right ((ysi.getD 0 none).getD 0) ((ysi.getD 1 none).getD 0)))
      else some 0
    match area0 with
    | none => .error
    | some a0 => .ok (trapzLoop x y n right 2 left false a0)

/-! ## Reshape (`transformations/reshape.rs`). -/

/-- Plain (non-mirrored) `Array2` element read. -/
def mget (m : MatQ) (i j : ℕ) : ℚ := (m.entries.getD i []).getD j 0

/-- `Array2` element write. -/
def mset (m : MatQ) (i j : ℕ) (v : ℚ) : MatQ :=
  { m with entries := m.entries.set i ((m.entries.getD i []).set j v) }

/-- `Array2::zeros`. -/
def mzeros (r c : ℕ) : MatQ := ⟨r, c, List.replicate r (List.replicate c 0)⟩

/-- Outcome of `ReshapeTransform::transform`: value, error, or the
division-by-zero panic for `rows = 0`. -/
inductive ReshapeResult
  | ok (m : MatQ)
  | error
  | panic
deriving DecidableEq

/-- `ReshapeTransform::transform` (`reshape.rs` lines 21–51): re-flows
the `(x, y)` pairs in raster order into a new row count.  The write
loop runs `j` over even indices below `ncr - 1` and threads the source
cursor `(a, b)`. -/
def reshape_transform (rows : ℕ) (m : MatQ) : ReshapeResult :=
  if rows = 0 then .panic
  else
    let ncr := m.ncols * m.nrows / rows
    if rows * ncr ≠ m.nrows * m.ncols then .error
    else if ncr = 0 then .error
    else
      let idx := ((List.range (ncr - 1)).filter (fun j => j % 2 = 0)).flatMap
        (fun j => (List.range rows).map (fun i => (j, i)))
      let final := idx.foldl (fun (st : ℕ × ℕ × MatQ) ji =>
        let out1 := mset st.2.2 ji.2 ji.1 (mget m st.1 st.2.1)
        let out2 := mset out1 ji.2 (ji.1 + 1) (mget m st.1 (st.2.1 + 1))
        if st.1 + 1 = m.nrows then (0, st.2.1 + 2, out2) else (st.1 + 1, st.2.1, out2))
        (0, 0, mzeros rows ncr)
      .ok final.2.2

/-! ## Frame selection and `SubtractTransform`
(`common.rs`, `transformations/subtract.rs`).

Dataset matrices are viewed column-major here (a list of columns),
matching the `Axis(1)` iteration the code uses; entries are `OQ`
because `linear_resample_array` writes NaN sentinels into the data. -/

/-- A dataset matrix as its list of columns. -/
abbrev ColsOQ := List (List OQ)

/-- The column-index selection built by `Dataset::select_frames`
(`common.rs` lines 283–294): even columns, filtered by
`invert ^ frames.contains(n/2 + 1)`, each expanded to `[n, n+1]`. -/
def selectionIndices (ncols : ℕ) (frames : List ℕ) (invert : Bool) : List ℕ :=
  (((List.range ncols).filter (fun n => n % 2 = 0)).filter
    (fun n => xor invert (frames.contains (n / 2 + 1)))).flatMap (fun n => [n, n + 1])

/-- `Dataset::verify_frames_in_bounds` / `verify_one_frame_in_bounds`
(`common.rs` lines 269–300). -/
def verify_frames_in_bounds (ncols : ℕ) (frames : List ℕ) : Bool :=
  frames.all (fun f => !(f == 0) && decide ((f - 1) * 2 < ncols))

/-- `Dataset::select_frames`: bounds check, build the selection, fail
on an empty selection, copy the selected columns.  (For an even column
count every selected index is in bounds; `ndarray::select` would panic
otherwise.) -/
def select_frames (d : ColsOQ) (frames : List ℕ) (invert : Bool) : Option ColsOQ :=
  if verify_frames_in_bounds d.length frames then
    let sel := selectionIndices d.length frames invert
    if sel.isEmpty then none
    else some (sel.map (fun i => d.getD i []))
  else none

/-- `lininterp` on possibly-NaN values (NaN propagates). -/
def lininterpOQ (x x0 x1 y0 y1 : OQ) : OQ :=
  ((y1.mul (x.sub x0)).add (y0.mul (x1.sub x))).div (x1.sub x0)

/-- `linear_resample_array` on possibly-NaN values; all comparisons
with NaN are false, exactly as for `f64`. -/
def linear_resample_arrayOQ (xs ys grid : List OQ) : List OQ :=
  let segments := (xs.zip ys).zip (xs.tail.zip ys.tail)
  grid.map (fun xi =>
    match segments.find? (fun sg => OQ.ge xi sg.1.1 && OQ.lt xi sg.2.1) with
    | some sg => lininterpOQ xi sg.1.1 sg.2.1 sg.1.2 sg.2.2
    | none =>
      match segments.getLast? with
      | some sg => if OQ.eqb xi sg.2.1 then sg.2.2 else none
      | none => none)

/-- The per-pair loop of `SubtractTransform::transform` (`subtract.rs`
lines 45–57): `for n in (0..ncols-1).step_by(2)`, which touches every
`(x, y)` column pair and leaves a lone trailing column unchanged. -/
def subtractPairs (grid subys : List OQ) (direct : Bool) : ColsOQ → ColsOQ
  | [] => []
  | [c] => [c]
  | cx :: cy :: rest =>
    let ys := if direct then cy else linear_resample_arrayOQ cx cy grid
    let diff := ys.zipWith OQ.sub subys
    (if direct then cx else grid) :: diff :: subtractPairs grid subys direct rest

/-- `SubtractTransform::transform` (`subtract.rs` lines 31–60). -/
def subtract_transform (subtrahend : ℕ) (minuends : Option (List ℕ)) (direct : Bool)
    (d : ColsOQ) : Option ColsOQ := do
  let mins ← match minuends with
    | some ms =>
      if ms.contains subtrahend then none
      else select_frames d ms false
    | none => select_frames d [subtrahend] true
  let sub ← select_frames d [subtrahend] false
  let grid := sub.getD 0 []
  let subys := sub.getD 1 []
  some (subtractPairs grid subys direct mins)

/-! ## `NormalizeTransform` and the pipeline
(`transformations/normalize.rs`, `common.rs`, `transformations.rs`).

These claims use finite data only, so dataset matrices are column
lists over `ℚ` here. -/

/-- A finite-valued dataset matrix as its list of columns. -/
abbrev ColsQ := List (List ℚ)

/-- `Dataset` (`common.rs` lines 119–124). -/
structure Dataset where
  data : ColsQ
  metadata : Str
  previous_comments : Str
deriving DecidableEq

/-- The per-frame divisor of `NormalizeTransform::transform`
(`normalize.rs` lines 47–58): nearest y-value when `xj` is absent,
otherwise the `trapz` integral.  `none` is the error return (the
`ys.get(idx).unwrap()` cannot fail because `nearest_index` returns an
in-bounds index for the equal-length frame columns; a `trapz` panic is
impossible on the nonempty frames the claims use). -/
def normalizeNorm (xi : ℚ) (xj : Option ℚ) (lb : Bool) (xs ys : List ℚ) : Option ℚ :=
  match xj with
  | none => (nearest_index (xs.map some) xi).map (fun idx => ys.getD idx 0)
  | some xjv =>
    match trapz xs ys xi xjv lb with
    | .ok v => some v
    | _ => none

/-- The frame loop of `NormalizeTransform::transform` (`normalize.rs`
lines 44–69).  `iter_mut_selected_frames` (`common.rs` lines 134–172)
pairs ALL columns of the dataset — its computed `_indices` for the
`targets` argument are never used — so the loop runs over every frame;
on the first failing frame the error is returned with the earlier
frames already divided in place.  When `filter_range` is set the
branch body is empty and the frame is left unchanged. -/
def normalizeGo (xi : ℚ) (xj : Option ℚ) (lb : Bool) (fr : Option (ℚ × ℚ)) :
    ColsQ → ColsQ × Bool
  | [] => ([], false)
  | [c] => ([c], false)
  | cx :: cy :: rest =>
    match normalizeNorm xi xj lb cx cy with
    | none => (cx :: cy :: rest, true)
    | some norm =>
      let cy1 := if fr.isSome then cy else cy.map (fun v => v / norm)
      let r := normalizeGo xi xj lb fr rest
      (cx :: cy1 :: r.1, r.2)

/-- `NormalizeTransform::transform`: the `target_frames` parameter is
accepted but dead (the TODO in `iter_mut_selected_frames` notes that
frame selection does not work), so it is ignored exactly as in the
code.  The returned Bool is `true` iff the transform returned an
error. -/
def normalize_transform (xi : ℚ) (xj : Option ℚ) (lb : Bool)
    (_targets : Option (List ℕ)) (fr : Option (ℚ × ℚ)) (d : ColsQ) : ColsQ × Bool :=
  normalizeGo xi xj lb fr d

/-- A pipeline entry: the `dyn TransformerGUI` trait object seen
through the `Transformer` super-trait — a `transform` mutating the
dataset (the state is kept even when an error is returned, as with
`&mut`) and its serialized configuration (`config_to_string`, which is
infallible for these serde structs). -/
structure TransformerM where
  transform : Dataset → Dataset × Bool
  config : Str

instance : Inhabited TransformerM := ⟨⟨fun d => (d, false), []⟩⟩

/-- The delimiter line appended after every configuration. -/
def delimStr : Str := ("---\n").toList

/-- `Transformer::write_metadata_yaml` (`transformations.rs` lines
25–30). -/
def write_metadata_yaml (t : TransformerM) (ds : Dataset) : Dataset :=
  { ds with metadata := ds.metadata ++ t.config ++ delimStr }

/-- `Transformer::apply` (`transformations.rs` lines 31–35):
`transform` first; only on success append the configuration. -/
def transformerApply (t : TransformerM) (ds : Dataset) : Dataset × Bool :=
  let r := t.transform ds
  if r.2 then (r.1, true) else (write_metadata_yaml t r.1, false)

/-- `Pipeline::apply` (`common.rs` lines 456–461): run the
transformers in order, stopping at the first error. -/
def pipeline_apply : List TransformerM → Dataset → Dataset × Bool
  | [], ds => (ds, false)
  | t :: ts, ds =>
    let r := transformerApply t ds
    if r.2 then (r.1, true) else pipeline_apply ts r.1

/-- The concatenated provenance text the first `k` transformers
append. -/
def configsConcat (ts : List TransformerM) : Str :=
  (ts.map (fun t => t.config ++ delimStr)).flatten

/-- `NormalizeTransform` as a pipeline entry. -/
def normalizeTransformer (xi : ℚ) (xj : Option ℚ) (lb : Bool)
    (targets : Option (List ℕ)) (fr : Option (ℚ × ℚ)) : TransformerM :=
  { transform := fun ds =>
      let r := normalize_transform xi xj lb targets fr ds.data
      ({ ds with data := r.1 }, r.2)
    config := ("transformation: NormalizeTransform\n").toList }

/-! ## Provenance serialization and `Pipeline::from_yaml_header`
(`common.rs` lines 330–462, `transformations.rs` lines 25–30).

The sixteen transformer structs are embedded as a sum type carrying
exactly their serde-visible parameters (`#[serde(skip)]` GUI buffers
are omitted, as serde omits them).  `serde_yaml` is an external crate:
its emission/parsing of the tagged structs is modelled from the spec
("a line `transformation: <Name>` followed by that transform's
serialized key/value configuration") as the canonical key/value-line
encoding `encodeConfig` below and its inverse parsers.  Everything the
repository itself does to provenance text — appending `"---\n"` after
each configuration, splitting on `"---"`, replacing `"# "`, trimming,
the `transformation:` tag regex and the sixteen-way name dispatch — is
embedded from `common.rs` directly. -/

/-- The sixteen transformer variants with their serde-visible
parameters, in struct declaration order.  `f64` parameters are
rationals, `PathBuf` is a string. -/
inductive Transform
  | align (cost_max_abs : ℚ)
  | append (filepath : Option Str) (comment : Char) (delimiter : Char) (horizontal : Bool)
  | average
  | baseline (points : List (ℚ × ℚ)) (store : Bool)
  | calibration (points : List (ℚ × ℚ))
  | countConversion (exposure : ℚ) (conversion_factor : ℚ)
  | despike (siglim : ℚ) (flim : ℚ)
  | finning (threshold : ℚ) (iterations : ℕ)
  | integrate (bounds : List (ℚ × ℚ)) (local_baseline : Bool)
  | mask (mask : List (ℕ × ℕ))
  | normalize (xi : ℚ) (xj : Option ℚ) (local_baseline : Bool)
      (target_frames : Option (List ℕ)) (filter_range : Option (ℚ × ℚ))
  | offset (offset : ℚ) (percentile : Bool) (target_frames : Option (List ℕ))
  | ramanShift (wavelength : ℚ) (refractive_index : ℚ) (correction : Option ℚ)
  | reshape (rows : ℕ)
  | select (frames : List ℕ) (invert : Bool)
  | subtract (subtrahend : ℕ) (minuends : Option (List ℕ)) (direct : Bool)
deriving DecidableEq

/-- The struct identifier used as the serde tag of each variant. -/
def nameOf : Transform → Str
  | .align _ => ("AlignTransform").toList
  | .append _ _ _ _ => ("AppendTransform").toList
  | .average => ("AverageTransform").toList
  | .baseline _ _ => ("BaselineTransform").toList
  | .calibration _ => ("CalibrationTransform").toList
  | .countConversion _ _ => ("CountConversionTransform").toList
  | .despike _ _ => ("DespikeTransform").toList
  | .finning _ _ => ("FinningTransform").toList
  | .integrate _ _ => ("IntegrateTransform").toList
  | .mask _ => ("MaskTransform").toList
  | .normalize _ _ _ _ _ => ("NormalizeTransform").toList
  | .offset _ _ _ => ("OffsetTransform").toList
  | .ramanShift _ _ _ => ("RamanShiftTransform").toList
  | .reshape _ => ("ReshapeTransform").toList
  | .select _ _ => ("SelectTransform").toList
  | .subtract _ _ _ => ("SubtractTransform").toList

/-- Little-endian decimal digits, with a structural fuel argument so
that the definition evaluates by kernel reduction; `digitsLE n n`
agrees with `Nat.digits 10 n`. -/
def digitsLE : ℕ → ℕ → List ℕ
  | _, 0 => []
  | 0, _ + 1 => []
  | fuel + 1, n + 1 => (n + 1) % 10 :: digitsLE fuel ((n + 1) / 10)

/-- Decimal rendering of a natural number. -/
def natStr (n : ℕ) : Str :=
  if n = 0 then ['0'] else (digitsLE n n).reverse.map (fun d => Char.ofNat (48 + d))

/-- Canonical injective rendering of a rational parameter:
`[-]num/den` in lowest terms (the model's YAML scalar for `f64`). -/
def ratStr (q : ℚ) : Str :=
  (if q.num < 0 then ['-'] else []) ++ natStr q.num.natAbs ++ '/' :: natStr q.den

/-- YAML booleans. -/
def boolStr (b : Bool) : Str := if b then ("true").toList else ("false").toList

/-- YAML single-quoted character scalar (serde_yaml quotes `char`s). -/
def charStr (c : Char) : Str := ['\'', c, '\'']

/-- The `"transformation: "` prefix of the tag line. -/
def tagPre : Str := ("transformation: ").toList

/-- The `": "` separator of a `key: value` line. -/
def colonSp : Str := (": ").toList

/-- The `"- "` prefix of a block-sequence item line. -/
def dashSp : Str := ("- ").toList

/-- The `"- a: "` prefix of a pair item's first line. -/
def dashASp : Str := ("- a: ").toList

/-- The `"  b: "` prefix of a pair item's second line. -/
def spBSp : Str := ("  b: ").toList

/-- The `"  a: "` prefix of a nested map's first line. -/
def spASp : Str := ("  a: ").toList

/-- A `key: value` line. -/
def kvLine (key v : Str) : Str := key ++ colonSp ++ v

/-- Block-style YAML sequence of naturals under `key`. -/
def encListNat (key : Str) (l : List ℕ) : List Str :=
  if l.isEmpty then [key ++ (": []").toList]
  else (key ++ (":").toList) :: l.map (fun n => dashSp ++ natStr n)

/-- Optional sequence of naturals (`~` for `None`). -/
def encOptListNat (key : Str) : Option (List ℕ) → List Str
  | none => [key ++ (": ~").toList]
  | some l => encListNat key l

/-- Block-style YAML sequence of `Pair<f64>` values under `key`. -/
def encPairListQ (key : Str) (l : List (ℚ × ℚ)) : List Str :=
  if l.isEmpty then [key ++ (": []").toList]
  else (key ++ (":").toList) ::
    l.flatMap (fun p => [dashASp ++ ratStr p.1, spBSp ++ ratStr p.2])

/-- Block-style YAML sequence of `Pair<usize>` values under `key`. -/
def encPairListN (key : Str) (l : List (ℕ × ℕ)) : List Str :=
  if l.isEmpty then [key ++ (": []").toList]
  else (key ++ (":").toList) ::
    l.flatMap (fun p => [dashASp ++ natStr p.1, spBSp ++ natStr p.2])

/-- Optional `Pair<f64>` map under `key` (`~` for `None`). -/
def encOptPairQ (key : Str) : Option (ℚ × ℚ) → List Str
  | none => [key ++ (": ~").toList]
  | some p => [key ++ (":").toList, spASp ++ ratStr p.1, spBSp ++ ratStr p.2]

/-- Optional rational (`~` for `None`). -/
def encOptRat (key : Str) : Option ℚ → Str
  | none => key ++ (": ~").toList
  | some q => kvLine key (ratStr q)

/-- Optional path string (`~` for `None`). -/
def encOptStr (key : Str) : Option Str → Str
  | none => key ++ (": ~").toList
  | some p => kvLine key p

/-- The lines of one transformer's serialized configuration: the serde
tag line followed by the fields in declaration order. -/
def encodeLines (t : Transform) : List Str :=
  (tagPre ++ nameOf t) ::
  match t with
  | .align q => [kvLine (("cost_max_abs").toList) (ratStr q)]
  | .append fp c d h =>
    [encOptStr (("filepath").toList) fp,
     kvLine (("comment").toList) (charStr c),
     kvLine (("delimiter").toList) (charStr d),
     kvLine (("horizontal").toList) (boolStr h)]
  | .average => []
  | .baseline pts st =>
    encPairListQ (("points").toList) pts ++ [kvLine (("store").toList) (boolStr st)]
  | .calibration pts => encPairListQ (("points").toList) pts
  | .countConversion e cf =>
    [kvLine (("exposure").toList) (ratStr e),
     kvLine (("conversion_factor").toList) (ratStr cf)]
  | .despike s f =>
    [kvLine (("siglim").toList) (ratStr s), kvLine (("flim").toList) (ratStr f)]
  | .finning th it =>
    [kvLine (("threshold").toList) (ratStr th), kvLine (("iterations").toList) (natStr it)]
  | .integrate bds lb =>
    encPairListQ (("bounds").toList) bds ++ [kvLine (("local_baseline").toList) (boolStr lb)]
  | .mask ms => encPairListN (("mask").toList) ms
  | .normalize xi xj lb tf fr =>
    [kvLine (("xi").toList) (ratStr xi), encOptRat (("xj").toList) xj,
     kvLine (("local_baseline").toList) (boolStr lb)] ++
    encOptListNat (("target_frames").toList) tf ++ encOptPairQ (("filter_range").toList) fr
  | .offset off pc tf =>
    [kvLine (("offset").toList) (ratStr off), kvLine (("percentile").toList) (boolStr pc)] ++
    encOptListNat (("target_frames").toList) tf
  | .ramanShift wl ri corr =>
    [kvLine (("wavelength").toList) (ratStr wl),
     kvLine (("refractive_index").toList) (ratStr ri),
     encOptRat (("correction").toList) corr]
  | .reshape r => [kvLine (("rows").toList) (natStr r)]
  | .select fr inv =>
    encListNat (("frames").toList) fr ++ [kvLine (("invert").toList) (boolStr inv)]
  | .subtract s m d =>
    kvLine (("subtrahend").toList) (natStr s) ::
    encOptListNat (("minuends").toList) m ++ [kvLine (("direct").toList) (boolStr d)]

/-- `Transformer::config_to_string`: the YAML text of one transformer
(lines joined by newlines, with a trailing newline). -/
def encodeConfig (t : Transform) : Str := joinNl (encodeLines t) ++ ['\n']

/-- The provenance text a pipeline appends to `dataset.metadata`: each
configuration followed by the `"---\n"` delimiter
(`Transformer::write_metadata_yaml`). -/
def write_provenance (ts : List Transform) : Str :=
  (ts.map (fun t => encodeConfig t ++ delimStr)).flatten

/-! Parsers modelling `serde_yaml::from_str` on the canonical encoding. -/

/-- Strip a literal prefix. -/
def stripPre (p s : Str) : Option Str :=
  if isPre p s then some (s.drop p.length) else none

/-- ASCII digit test. -/
def isDigitCh (c : Char) : Bool := decide (48 ≤ c.toNat) && decide (c.toNat ≤ 57)

/-- Digit value of an ASCII digit. -/
def digitVal (c : Char) : ℕ := c.toNat - 48

/-- Parse a decimal natural. -/
def parseNat (s : Str) : Option ℕ :=
  if s ≠ [] ∧ s.all isDigitCh then some (Nat.ofDigits 10 ((s.map digitVal).reverse)) else none

/-- Parse an unsigned rational `num/den`. -/
def parseRatPos (s : Str) : Option ℚ :=
  let rest := s.dropWhile isDigitCh
  if rest.head? = some '/' then
    (parseNat (s.takeWhile isDigitCh)).bind
      (fun a => (parseNat (rest.drop 1)).map (fun b => (a : ℚ) / (b : ℚ)))
  else none

/-- Parse a rational scalar (leading `-` for negatives). -/
def parseRat (s : Str) : Option ℚ :=
  if s.take 1 = ['-'] then (parseRatPos (s.drop 1)).map (fun q => -q)
  else parseRatPos s

/-- Parse a YAML boolean. -/
def parseBool (s : Str) : Option Bool :=
  if s = ("true").toList then some true
  else if s = ("false").toList then some false
  else none

/-- Parse a single-quoted character. -/
def parseChar : Str → Option Char
  | ['\'', c, '\''] => some c
  | _ => none

/-- Parse an optional rational (`~` for `None`). -/
def parseOptRat (s : Str) : Option (Option ℚ) :=
  if s = ['~'] then some none else (parseRat s).map some

/-- Parse an optional path string (`~` for `None`). -/
def parseOptStr (s : Str) : Option (Option Str) :=
  if s = ['~'] then some none else some (some s)

/-- Consume one `key: value` line with the given scalar parser. -/
def pOne (key : Str) (f : Str → Option α) : List Str → Option (α × List Str)
  | [] => none
  | l :: rest => ((stripPre (key ++ colonSp) l).bind f).map (fun v => (v, rest))

/-- Consume the `- n` items of a sequence of naturals. -/
def pItemsNat : List Str → Option (List ℕ × List Str)
  | [] => some ([], [])
  | l :: rest =>
    match stripPre dashSp l with
    | none => some ([], l :: rest)
    | some v =>
      (parseNat v).bind (fun n => (pItemsNat rest).map (fun r => (n :: r.1, r.2)))

/-- Consume a sequence-of-naturals field. -/
def pListNat (key : Str) : List Str → Option (List ℕ × List Str)
  | [] => none
  | l :: rest =>
    if l = key ++ (": []").toList then some ([], rest)
    else if l = key ++ (":").toList then pItemsNat rest
    else none

/-- Consume an optional sequence-of-naturals field. -/
def pOptListNat (key : Str) : List Str → Option (Option (List ℕ) × List Str)
  | [] => none
  | l :: rest =>
    if l = key ++ (": ~").toList then some (none, rest)
    else (pListNat key (l :: rest)).map (fun r => (some r.1, r.2))

/-- Consume the two-line items of a sequence of rational pairs. -/
def pPairItemsQ : List Str → Option (List (ℚ × ℚ) × List Str)
  | [] => some ([], [])
  | [l] =>
    match stripPre dashASp l with
    | none => some ([], [l])
    | some _ => none
  | l :: l2 :: rest =>
    match stripPre dashASp l with
    | none => some ([], l :: l2 :: rest)
    | some va =>
      (stripPre spBSp l2).bind (fun vb =>
        (parseRat va).bind (fun a =>
          (parseRat vb).bind (fun b =>
            (pPairItemsQ rest).map (fun r => ((a, b) :: r.1, r.2)))))

/-- Consume a sequence-of-rational-pairs field. -/
def pPairListQ (key : Str) : List Str → Option (List (ℚ × ℚ) × List Str)
  | [] => none
  | l :: rest =>
    if l = key ++ (": []").toList then some ([], rest)
    else if l = key ++ (":").toList then pPairItemsQ rest
    else none

/-- Consume the two-line items of a sequence of natural pairs. -/
def pPairItemsN : List Str → Option (List (ℕ × ℕ) × List Str)
  | [] => some ([], [])
  | [l] =>
    match stripPre dashASp l with
    | none => some ([], [l])
    | some _ => none
  | l :: l2 :: rest =>
    match stripPre dashASp l with
    | none => some ([], l :: l2 :: rest)
    | some va =>
      (stripPre spBSp l2).bind (fun vb =>
        (parseNat va).bind (fun a =>
          (parseNat vb).bind (fun b =>
            (pPairItemsN rest).map (fun r => ((a, b) :: r.1, r.2)))))

/-- Consume a sequence-of-natural-pairs field. -/
def pPairListN (key : Str) : List Str → Option (List (ℕ × ℕ) × List Str)
  | [] => none
  | l :: rest =>
    if l = key ++ (": []").toList then some ([], rest)
    else if l = key ++ (":").toList then pPairItemsN rest
    else none

/-- Consume an optional rational-pair map field. -/
def pOptPairQ (key : Str) : List Str → Option (Option (ℚ × ℚ) × List Str)
  | [] => none
  | l :: rest =>
    if l = key ++ (": ~").toList then some (none, rest)
    else if l = key ++ (":").toList then
      match rest with
      | la :: lb :: rest2 =>
        (stripPre spASp la).bind (fun va =>
          (stripPre spBSp lb).bind (fun vb =>
            (parseRat va).bind (fun a =>
              (parseRat vb).map (fun b => (some (a, b), rest2)))))
      | _ => none
    else none

/-- Expect the serde tag line for the named variant. -/
def expectTag (name : Str) : List Str → Option (List Str)
  | [] => none
  | l :: rest => if l = tagPre ++ name then some rest else none

/-- Require that the whole segment was consumed. -/
def finishWith (t : Transform) (rest : List Str) : Option Transform :=
  if rest = [] then some t else none

/-- Deserialize an `AlignTransform` segment. -/
def parseAlign (ls : List Str) : Option Transform := do
  let r ← expectTag (("AlignTransform").toList) ls
  let (q, r) ← pOne (("cost_max_abs").toList) parseRat r
  finishWith (.align q) r

/-- Deserialize an `AppendTransform` segment. -/
def parseAppend (ls : List Str) : Option Transform := do
  let r ← expectTag (("AppendTransform").toList) ls
  let (fp, r) ← pOne (("filepath").toList) parseOptStr r
  let (c, r) ← pOne (("comment").toList) parseChar r
  let (d, r) ← pOne (("delimiter").toList) parseChar r
  let (h, r) ← pOne (("horizontal").toList) parseBool r
  finishWith (.append fp c d h) r

/-- Deserialize an `AverageTransform` segment. -/
def parseAverage (ls : List Str) : Option Transform := do
  let r ← expectTag (("AverageTransform").toList) ls
  finishWith .average r

/-- Deserialize a `BaselineTransform` segment. -/
def parseBaseline (ls : List Str) : Option Transform := do
  let r ← expectTag (("BaselineTransform").toList) ls
  let (pts, r) ← pPairListQ (("points").toList) r
  let (st, r) ← pOne (("store").toList) parseBool r
  finishWith (.baseline pts st) r

/-- Deserialize a `CalibrationTransform` segment. -/
def parseCalibration (ls : List Str) : Option Transform := do
  let r ← expectTag (("CalibrationTransform").toList) ls
  let (pts, r) ← pPairListQ (("points").toList) r
  finishWith (.calibration pts) r

/-- Deserialize a `CountConversionTransform` segment. -/
def parseCountConversion (ls : List Str) : Option Transform := do
  let r ← expectTag (("CountConversionTransform").toList) ls
  let (e, r) ← pOne (("exposure").toList) parseRat r
  let (cf, r) ← pOne (("conversion_factor").toList) parseRat r
  finishWith (.countConversion e cf) r

/-- Deserialize a `DespikeTransform` segment. -/
def parseDespike (ls : List Str) : Option Transform := do
  let r ← expectTag (("DespikeTransform").toList) ls
  let (s, r) ← pOne (("siglim").toList) parseRat r
  let (f, r) ← pOne (("flim").toList) parseRat r
  finishWith (.despike s f) r

/-- Deserialize a `FinningTransform` segment. -/
def parseFinning (ls : List Str) : Option Transform := do
  let r ← expectTag (("FinningTransform").toList) ls
  let (th, r) ← pOne (("threshold").toList) parseRat r
  let (it, r) ← pOne (("iterations").toList) parseNat r
  finishWith (.finning th it) r

/-- Deserialize an `IntegrateTransform` segment. -/
def parseIntegrate (ls : List Str) : Option Transform := do
  let r ← expectTag (("IntegrateTransform").toList) ls
  let (bds, r) ← pPairListQ (("bounds").toList) r
  let (lb, r) ← pOne (("local_baseline").toList) parseBool r
  finishWith (.integrate bds lb) r

/-- Deserialize a `MaskTransform` segment. -/
def parseMask (ls : List Str) : Option Transform := do
  let r ← expectTag (("MaskTransform").toList) ls
  let (ms, r) ← pPairListN (("mask").toList) r
  finishWith (.mask ms) r

/-- Deserialize a `NormalizeTransform` segment. -/
def parseNormalize (ls : List Str) : Option Transform := do
  let r ← expectTag (("NormalizeTransform").toList) ls
  let (xi, r) ← pOne (("xi").toList) parseRat r
  let (xj, r) ← pOne (("xj").toList) parseOptRat r
  let (lb, r) ← pOne (("local_baseline").toList) parseBool r
  let (tf, r) ← pOptListNat (("target_frames").toList) r
  let (fr, r) ← pOptPairQ (("filter_range").toList) r
  finishWith (.normalize xi xj lb tf fr) r

/-- Deserialize an `OffsetTransform` segment. -/
def parseOffset (ls : List Str) : Option Transform := do
  let r ← expectTag (("OffsetTransform").toList) ls
  let (off, r) ← pOne (("offset").toList) parseRat r
  let (pc, r) ← pOne (("percentile").toList) parseBool r
  let (tf, r) ← pOptListNat (("target_frames").toList) r
  finishWith (.offset off pc tf) r

/-- Deserialize a `RamanShiftTransform` segment. -/
def parseRamanShift (ls : List Str) : Option Transform := do
  let r ← expectTag (("RamanShiftTransform").toList) ls
  let (wl, r) ← pOne (("wavelength").toList) parseRat r
  let (ri, r) ← pOne (("refractive_index").toList) parseRat r
  let (corr, r) ← pOne (("correction").toList) parseOptRat r
  finishWith (.ramanShift wl ri corr) r

/-- Deserialize a `ReshapeTransform` segment. -/
def parseReshape (ls : List Str) : Option Transform := do
  let r ← expectTag (("ReshapeTransform").toList) ls
  let (rw, r) ← pOne (("rows").toList) parseNat r
  finishWith (.reshape rw) r

/-- Deserialize a `SelectTransform` segment. -/
def parseSelect (ls : List Str) : Option Transform := do
  let r ← expectTag (("SelectTransform").toList) ls
  let (fr, r) ← pListNat (("frames").toList) r
  let (inv, r) ← pOne (("invert").toList) parseBool r
  finishWith (.select fr inv) r

/-- Deserialize a `SubtractTransform` segment. -/
def parseSubtract (ls : List Str) : Option Transform := do
  let r ← expectTag (("SubtractTransform").toList) ls
  let (s, r) ← pOne (("subtrahend").toList) parseNat r
  let (m, r) ← pOptListNat (("minuends").toList) r
  let (d, r) ← pOne (("direct").toList) parseBool r
  finishWith (.subtract s m d) r

/-- The `(?m)^transformation: ([a-zA-Z]*)$` capture on one line. -/
def tagNameOf (l : Str) : Option Str :=
  (stripPre tagPre l).bind (fun rest => if rest.all Char.isAlpha then some rest else none)

/-- First line matching the tag regex. -/
def findTag : List Str → Option Str
  | [] => none
  | l :: rest =>
    match tagNameOf l with
    | some n => some n
    | none => findTag rest

/-- `yaml_segment_to_transform` (`common.rs` lines 352–383): find the
`transformation: <Name>` tag, dispatch on the sixteen registered struct
names, deserialize the segment; `none` models both the "no transformer
declared" / "matches no known transformer" errors and a serde parse
error. -/
def yaml_segment_to_transform (seg : Str) : Option Transform :=
  let ls := splitNl seg
  match findTag ls with
  | none => none
  | some name =>
    if name = ("AlignTransform").toList then parseAlign ls
    else if name = ("AppendTransform").toList then parseAppend ls
    else if name = ("AverageTransform").toList then parseAverage ls
    else if name = ("CalibrationTransform").toList then parseCalibration ls
    else if name = ("CountConversionTransform").toList then parseCountConversion ls
    else if name = ("DespikeTransform").toList then parseDespike ls
    else if name = ("BaselineTransform").toList then parseBaseline ls
    else if name = ("FinningTransform").toList then parseFinning ls
    else if name = ("IntegrateTransform").toList then parseIntegrate ls
    else if name = ("MaskTransform").toList then parseMask ls
    else if name = ("NormalizeTransform").toList then parseNormalize ls
    else if name = ("OffsetTransform").toList then parseOffset ls
    else if name = ("RamanShiftTransform").toList then parseRamanShift ls
    else if name = ("ReshapeTransform").toList then parseReshape ls
    else if name = ("SelectTransform").toList then parseSelect ls
    else if name = ("SubtractTransform").toList then parseSubtract ls
    else none

/-- The segment loop of `Pipeline::from_yaml_header` (`common.rs`
lines 446–455): per chunk, strip `"# "`, trim, keep chunks containing
`"transformation: "`, parse them in order, propagating errors. -/
def processChunks : List Str → Option (List Transform)
  | [] => some []
  | c :: cs =>
    let seg := trimStr (removeHashSp c)
    if hasSub tagPre seg then
      (yaml_segment_to_transform seg).bind (fun t => (processChunks cs).map (t :: ·))
    else processChunks cs

/-- `Pipeline::from_yaml_header`: split the provenance text on `"---"`
and parse the segments. -/
def from_yaml_header (s : Str) : Option (List Transform) :=
  processChunks (splitD3 s)

/-- Side condition on string-valued parameters (only `AppendTransform`
has one): the modelled YAML scalar for the path must not be the `None`
marker `~`. -/
def paramsOk : Transform → Prop
  | .append (some p) _ _ _ => p ≠ ['~']
  | _ => True

instance : ∀ t, Decidable (paramsOk t) := fun t => by
  unfold paramsOk
  split
  · exact instDecidableNot
  · exact instDecidableTrue

/-- The serialized-configuration cleanliness hypothesis of the amended
round-trip claim: the configuration contains no stray `"---"` or
`"# "`, its line join is trim-stable and splits back into its lines
(no embedded newline in parameter values), and string parameters avoid
the `~` marker.  All conditions are decidable and hold for every
configuration whose string/char parameters avoid the delimiter,
comment-prefix, newline and `~` texts. -/
def goodT (t : Transform) : Prop :=
  hasSub dash3 (encodeConfig t) = false ∧
  hasSub hashSp (encodeConfig t) = false ∧
  trimStr (joinNl (encodeLines t)) = joinNl (encodeLines t) ∧
  splitNl (joinNl (encodeLines t)) = encodeLines t ∧
  paramsOk t

instance : ∀ t, Decidable (goodT t) := fun t => by
  unfold goodT
  infer_instance

/-- The 1-based frame numbers of a dataset with `m` frames, in dataset
order. -/
def frameNums (m : ℕ) : List ℕ := (List.range m).map (· + 1)

/-- The even/odd column pair belonging to frame `f`. -/
def framePair (f : ℕ) : List ℕ := [2 * (f - 1), 2 * (f - 1) + 1]

/-! # Theorems -/

/-- C1: the claim says `median_filter` assigns the exact middle element
(index `(w*w)/2` of the sorted window).  In the code the sorted window
buffer is indexed with `window_size / 2` instead of
`window_size * window_size / 2`: on the 3×3 input `[[1..9]]` the centre
pixel's sorted 3×3 window is `[1..9]`, whose median is `5`, but the
filter returns `2` (index `3/2 = 1`).  The function's own name, the
`median_window_buffer` naming and the van-Dokkum algorithm it
implements all require the median, so this is a slip in the code. -/
theorem c1_median_filter_picks_wrong_index :
    median_filter_at ⟨3, 3, [[1,2,3],[4,5,6],[7,8,9]]⟩ 3 1 1 = 2 ∧
    sortQ (medianWindow ⟨3, 3, [[1,2,3],[4,5,6],[7,8,9]]⟩ 3 1 1) = [1,2,3,4,5,6,7,8,9] ∧
    (sortQ (medianWindow ⟨3, 3, [[1,2,3],[4,5,6],[7,8,9]]⟩ 3 1 1)).getD ((3 * 3) / 2) 0 = 5 ∧
    median_filter_at ⟨3, 3, [[1,2,3],[4,5,6],[7,8,9]]⟩ 3 1 1 ≠
      (sortQ (medianWindow ⟨3, 3, [[1,2,3],[4,5,6],[7,8,9]]⟩ 3 1 1)).getD ((3 * 3) / 2) 0 := by
  refine ⟨by decide, by decide, by decide, by decide⟩

/-- C6: the claim says `nearest_index` never returns a NaN index when a
non-NaN element exists, and returns `None` when all elements are NaN.
The comparator `partial_cmp(..).unwrap_or(Greater)` makes the fold
replace a finite accumulator by a NaN candidate (any comparison against
NaN yields `Greater`), so on `[0, NaN]` with target `0` the NaN index
`1` is returned; on `[0, NaN, 5]` the non-minimizing index `2` is
returned; and on an all-NaN input `Some` is still returned because
`min_by` on a nonempty iterator is never `None`.  This contradicts the
comment in the code ("index will be found next to valid float, if not
all values are NaN"). -/
theorem c6_nearest_index_nan_mishandled :
    nearest_index [some 0, none] 0 = some 1 ∧
    nearest_index [some 0, none, some 5] 0 = some 2 ∧
    nearest_index [none] 0 = some 0 ∧
    nearest_index [none, none] 0 ≠ none := by
  refine ⟨by decide, by decide, by decide, by decide⟩

/-- C7 counterexample: the claim says `mirror(-1, n) = 0`; the code
computes `-((-1) % n) = 1` (`mirror_index` reflects about the boundary
element itself, as its doc comment "mirror the index at idx = 0" says),
so already at `n = 2` the claimed value is wrong. -/
theorem c7_mirror_index_counterexample :
    mirror_index (-1) 2 = 1 ∧ mirror_index (-1) 2 ≠ 0 := by
  refine ⟨by decide, by decide⟩

/-- C7 amended: for every dimension `n ≥ 2` the despike boundary
mapping satisfies `mirror(-1, n) = 1` (one step inside, reflecting at
the boundary element) and `mirror(n, n) = n - 1`, and the mirrored
array accesses used by the Laplacian edge map therefore read row `1`
for row index `-1`. -/
theorem c7_mirror_index_amended (n : ℕ) (h : 2 ≤ n) :
    mirror_index (-1) n = 1 ∧ mirror_index n n = n - 1 ∧
    ∀ (a : MatQ) (j : ℤ), a.nrows = n → maGet a (-1) j = maGet a 1 j := by
  have hm1 : mirror_index (-1) n = 1 := by
    have ht : Int.tmod (-1) (n : ℤ) = -Int.ofNat (1 % n) := rfl
    simp only [mirror_index]
    rw [if_pos (by omega), ht, Nat.mod_eq_of_lt (by omega)]
    decide
  have hmn : mirror_index n n = n - 1 := by
    simp only [mirror_index]
    rw [if_neg (by omega), if_pos (by omega), Int.tmod_self]
    omega
  have hm2 : mirror_index 1 n = 1 := by
    simp only [mirror_index]
    rw [if_neg (by omega), if_neg (by omega)]
    decide
  exact ⟨hm1, hmn, fun a j ha => by unfold maGet; rw [ha, hm1, hm2]⟩

/-- C7 amended, witness at `n = 5`. -/
theorem c7_mirror_index_amended_witness :
    2 ≤ 5 ∧ mirror_index (-1) 5 = 1 :=
  ⟨by decide, (c7_mirror_index_amended 5 (by decide)).1⟩

/-- C8: the claim says every successful transform preserves the
even-column invariant.  `ReshapeTransform::transform` on a 3×2 matrix
(one frame, even columns) with `rows = 2` computes
`ncr = 2*3/2 = 3` columns, passes its `rows * ncr == total` check, and
succeeds with a 2×3 matrix — an odd column count, whose third column is
left at the `Array2::zeros` fill because the write loop only covers
`j < ncr - 1`.  The data-model invariant in the spec is the clear
intent; the reshape column computation is a slip. -/
theorem c8_reshape_breaks_even_column_invariant :
    (MatQ.mk 3 2 [[1,2],[3,4],[5,6]]).ncols % 2 = 0 ∧
    reshape_transform 2 ⟨3, 2, [[1,2],[3,4],[5,6]]⟩ = .ok ⟨2, 3, [[1,2,0],[3,4,0]]⟩ ∧
    (MatQ.mk 2 3 [[1,2,0],[3,4,0]]).ncols % 2 = 1 := by
  refine ⟨by decide, by decide, by decide⟩

/-- C4: the claim says every data segment intersecting the clipped
window contributes, including the first segment `[xs[0], xs[1]]`.  The
integration loop starts at `j = 2`, i.e. at the segment
`[x[1], x[2]]`, so the first segment never contributes: integrating the
constant `1` over the full range `[0, 2]` of `xs = [0, 1, 2]` returns
`1` (the `[1, 2]` trapezoid only) instead of the true clipped
trapezoidal value `2`.  This contradicts the function's own doc comment
("Integrate vector `y` in interval [`left`, `right`] … cropped to the
available range"). -/
theorem c4_trapz_skips_first_segment :
    trapz [0, 1, 2] [1, 1, 1] 0 2 false = .ok 1 ∧
    singletrapz 0 1 1 1 + singletrapz 1 2 1 1 = 2 ∧
    (1 : ℚ) ≠ 2 := by
  refine ⟨?_, by norm_num [singletrapz], by norm_num⟩
  simp [trapz, trapzLoop, U64, linear_resample_array]
  norm_num [trapzLoop, singletrapz, lininterp]

/-- C5 counterexample: the claim says `trapz` returns an error (rather
than panicking) when the inputs have fewer than 2 points *including
length 0*.  On empty inputs the wrapping `x.len() - 1` makes both
length guards pass and the subsequent `x[0]` access panics. -/
theorem c5_trapz_empty_input_panics :
    trapz [] [] 0 1 false = .panic ∧ TrapzResult.panic ≠ TrapzResult.error := by
  refine ⟨by decide, by decide⟩

/-- C5 amended: for nonempty inputs of machine-representable length
and `local_baseline = false`, `trapz` returns an error exactly when the
lengths mismatch, either input has fewer than 2 points, or the window
`[min(left,right), max(left,right)]` lies entirely at or beyond the
data range (`x[0] ≥ max` or `x[last] ≤ min`, so a window touching the
range in a single point also errors).  On empty inputs `trapz` panics
instead (see the counterexample), and with `local_baseline = true`
there are additional error cases for NaN endpoint interpolations. -/
theorem c5_trapz_error_conditions (x y : List ℚ) (l r : ℚ)
    (hx : x ≠ []) (hy : y ≠ []) (hxl : x.length < U64) (hyl : y.length < U64) :
    trapz x y l r false = .error ↔
      (x.length ≠ y.length ∨ x.length < 2 ∨
       x.getD 0 0 ≥ max l r ∨ x.getD (x.length - 1) 0 ≤ min l r) := by
  have hx1 : 1 ≤ x.length := List.length_pos.mpr hx
  have hy1 : 1 ≤ y.length := List.length_pos.mpr hy
  have hU : U64 = 2 ^ 64 := rfl
  have hn : (x.length + (U64 - 1)) % U64 = x.length - 1 := by
    rw [hU] at hxl ⊢; omega
  have hny : (y.length + (U64 - 1)) % U64 = y.length - 1 := by
    rw [hU] at hyl ⊢; omega
  have hlr1 : (if l < r then ((l, r) : ℚ × ℚ) else (r, l)).1 = min l r := by
    split_ifs with h
    · exact (min_eq_left h.le).symm
    · exact (min_eq_right (not_lt.mp h)).symm
  have hlr2 : (if l < r then ((l, r) : ℚ × ℚ) else (r, l)).2 = max l r := by
    split_ifs with h
    · exact (max_eq_right h.le).symm
    · exact (max_eq_left (not_lt.mp h)).symm
  simp only [trapz, hn, hny, hlr1, hlr2, Bool.false_eq_true, if_false]
  split_ifs with h1 h2 h3 h4
  · simp only [true_iff]
    exact Or.inl (by omega)
  · simp only [true_iff]
    exact Or.inr (Or.inl (by omega))
  · exact absurd (List.length_eq_zero.mp h3) hx
  · simp only [true_iff]
    exact Or.inr (Or.inr h4)
  · constructor
    · intro h
      exact absurd h (by simp)
    · intro h
      rcases h with h | h | h | h
      · omega
      · omega
      · exact absurd (Or.inl h) h4
      · exact absurd (Or.inr h) h4

/-- C5 amended, witness: mismatched lengths `[0, 1]` / `[0]` give an
error, matching the first disjunct. -/
theorem c5_trapz_error_conditions_witness :
    ([0, 1] : List ℚ) ≠ [] ∧ ([0] : List ℚ) ≠ [] ∧
    ([0, 1] : List ℚ).length < U64 ∧ ([0] : List ℚ).length < U64 ∧
    (trapz [0, 1] [0] 0 1 false = .error ↔
      (([0, 1] : List ℚ).length ≠ ([0] : List ℚ).length ∨
       ([0, 1] : List ℚ).length < 2 ∨
       ([0, 1] : List ℚ).getD 0 0 ≥ max 0 1 ∨
       ([0, 1] : List ℚ).getD (([0, 1] : List ℚ).length - 1) 0 ≤ min 0 1)) :=
  ⟨by decide, by decide, by decide, by decide,
   c5_trapz_error_conditions [0, 1] [0] 0 1 (by decide) (by decide) (by decide) (by decide)⟩

/-- C9: the claim says Normalize divides exactly the selected target
frames and leaves the others unchanged.  `iter_mut_selected_frames`
computes the requested indices into an unused `_indices` binding (its
own TODO says "selecting frames does currently not work") and then
pairs *all* columns, so with `target_frames = [1]` on a two-frame
dataset both frames are divided: frame 2's intensity column `[4]`
becomes `[1]` (divided by its own nearest-to-`xi` value) instead of
staying `[4]`. -/
theorem c9_normalize_ignores_target_frames :
    normalize_transform 0 none false (some [1]) none [[0], [2], [0], [4]] =
      ([[0], [1], [0], [1]], false) ∧
    ([[0], [1], [0], [1]] : ColsQ).getD 3 [] ≠ ([[0], [2], [0], [4]] : ColsQ).getD 3 [] := by
  constructor
  · rw [show normalize_transform 0 none false (some [1]) none [[0], [2], [0], [4]] =
      ([[0], [2/2], [0], [4/4]], false) from rfl]
    norm_num
  · simp only [List.getD]
    norm_num

/-- Evaluation of the failing single-Normalize pipeline used by the C3
counterexample and witness: frame 1 is divided in place before frame 2
makes `trapz` fail. -/
theorem normalize_pipeline_partial_eval :
    pipeline_apply [normalizeTransformer 0 (some 2) false none none]
        ⟨[[0,1,2],[2,2,2],[100,101,102],[2,2,2]], [], []⟩ =
      (⟨[[0,1,2],[1,1,1],[100,101,102],[2,2,2]], [], []⟩, true) := by
  have h1 : trapz [0, 1, 2] [2, 2, 2] 0 2 false = .ok 2 := by
    simp [trapz, trapzLoop, U64, linear_resample_array]
    norm_num [trapzLoop, singletrapz, lininterp]
  have h2 : trapz [100, 101, 102] [2, 2, 2] 0 2 false = .error := by decide
  have hn1 : normalizeNorm 0 (some 2) false [0, 1, 2] [2, 2, 2] = some 2 := by
    rw [normalizeNorm.eq_def]
    simp only []
    rw [h1]
  have hn2 : normalizeNorm 0 (some 2) false [100, 101, 102] [2, 2, 2] = none := by
    rw [normalizeNorm.eq_def]
    simp only []
    rw [h2]
  have g2 : normalizeGo 0 (some 2) false none [[100,101,102],[2,2,2]] =
      ([[100,101,102],[2,2,2]], true) := by
    rw [normalizeGo, hn2]
  have g1 : normalizeGo 0 (some 2) false none [[0,1,2],[2,2,2],[100,101,102],[2,2,2]] =
      ([[0,1,2],[1,1,1],[100,101,102],[2,2,2]], true) := by
    rw [normalizeGo, hn1]
    simp only [g2]
    norm_num
  simp only [pipeline_apply, transformerApply, normalizeTransformer, normalize_transform, g1]
  simp

/-- C3 counterexample: the claim says that when a transformer fails the
dataset keeps exactly the state (data and metadata) left by the
earlier, successful transformers.  A pipeline consisting of a single
`NormalizeTransform` (integral mode, `xi = 0`, `xj = 2`) applied to a
two-frame dataset whose second frame lies at `x ∈ [100, 102]` fails on
frame 2 (`trapz` window out of bounds) — but frame 1 has already been
divided in place, so the data differs from the state before the failing
transformer (here: the initial dataset), while the metadata is indeed
untouched. -/
theorem c3_failing_transformer_leaves_partial_mutation :
    (pipeline_apply [normalizeTransformer 0 (some 2) false none none]
        ⟨[[0,1,2],[2,2,2],[100,101,102],[2,2,2]], [], []⟩).2 = true ∧
    (pipeline_apply [normalizeTransformer 0 (some 2) false none none]
        ⟨[[0,1,2],[2,2,2],[100,101,102],[2,2,2]], [], []⟩).1.data ≠
      [[0,1,2],[2,2,2],[100,101,102],[2,2,2]] ∧
    (pipeline_apply [normalizeTransformer 0 (some 2) false none none]
        ⟨[[0,1,2],[2,2,2],[100,101,102],[2,2,2]], [], []⟩).1.metadata = [] := by
  rw [normalize_pipeline_partial_eval]
  refine ⟨rfl, ?_, rfl⟩
  simp only [ne_eq, List.cons.injEq]
  norm_num

/-- C3 amended: `Pipeline::apply` runs the transformers strictly in
list order and fails fast: if it returns an error there is a position
`k` such that the first `k` transformers succeeded, the `k`-th
transformer's `transform` returned the error, no later transformer ran
(the final state is exactly the failing `transform`'s output state),
the metadata at that point is exactly the initial metadata followed by
the configurations (plus delimiter) of the first `k` transformers, and
the failing transformer's configuration is not appended.  The dataset's
*data*, however, may contain partial mutations made by the failing
transformer before it failed (see the counterexample).  The hypothesis
that `transform` never touches `metadata` holds for all sixteen
transformer variants (only `write_metadata_yaml` writes it). -/
theorem c3_pipeline_fail_fast (ts : List TransformerM) (ds : Dataset)
    (hmeta : ∀ t ∈ ts, ∀ d, (t.transform d).1.metadata = d.metadata)
    (hfail : (pipeline_apply ts ds).2 = true) :
    ∃ k, k < ts.length ∧
      (pipeline_apply (ts.take k) ds).2 = false ∧
      ((ts.getD k default).transform ((pipeline_apply (ts.take k) ds).1)).2 = true ∧
      pipeline_apply ts ds =
        (((ts.getD k default).transform ((pipeline_apply (ts.take k) ds).1)).1, true) ∧
      ((pipeline_apply (ts.take k) ds).1).metadata = ds.metadata ++ configsConcat (ts.take k) ∧
      ((pipeline_apply ts ds).1).metadata = ((pipeline_apply (ts.take k) ds).1).metadata := by
  induction ts generalizing ds with
  | nil => simp [pipeline_apply] at hfail
  | cons t ts' ih =>
    by_cases hb : (t.transform ds).2 = true
    · have hrun : pipeline_apply (t :: ts') ds = ((t.transform ds).1, true) := by
        simp [pipeline_apply, transformerApply, hb]
      refine ⟨0, by simp, ?_, ?_, ?_, ?_, ?_⟩
      · simp [pipeline_apply]
      · simpa [pipeline_apply] using hb
      · simpa [pipeline_apply] using hrun
      · simp [pipeline_apply, configsConcat]
      · rw [hrun]
        simpa [pipeline_apply] using hmeta t (by simp) ds
    · have hb' : (t.transform ds).2 = false := by
        simpa using hb
      have hstep : pipeline_apply (t :: ts') ds =
          pipeline_apply ts' (write_metadata_yaml t (t.transform ds).1) := by
        simp [pipeline_apply, transformerApply, hb']
      have hfail' :
          (pipeline_apply ts' (write_metadata_yaml t (t.transform ds).1)).2 = true := by
        rw [← hstep]; exact hfail
      have hmeta' : ∀ u ∈ ts', ∀ d, (u.transform d).1.metadata = d.metadata :=
        fun u hu => hmeta u (List.mem_cons_of_mem _ hu)
      obtain ⟨k, hk, h1, h2, h3, h4, h5⟩ :=
        ih (write_metadata_yaml t (t.transform ds).1) hmeta' hfail'
      have hpre : pipeline_apply ((t :: ts').take (k + 1)) ds =
          pipeline_apply (ts'.take k) (write_metadata_yaml t (t.transform ds).1) := by
        simp only [List.take_succ_cons]
        simp [pipeline_apply, transformerApply, hb']
      have hmetaTop : (write_metadata_yaml t (t.transform ds).1).metadata =
          ds.metadata ++ (t.config ++ delimStr) := by
        simp [write_metadata_yaml, hmeta t (by simp) ds]
      have hc : configsConcat (t :: List.take k ts') =
          (t.config ++ delimStr) ++ configsConcat (List.take k ts') := by
        simp [configsConcat]
      refine ⟨k + 1, by simpa using Nat.succ_lt_succ hk, ?_, ?_, ?_, ?_, ?_⟩
      · rw [hpre]; exact h1
      · rw [List.getD_cons_succ, hpre]; exact h2
      · rw [hstep, List.getD_cons_succ, hpre]; exact h3
      · rw [hpre, h4, hmetaTop, List.take_succ_cons, hc]
        simp [List.append_assoc]
      · rw [hstep, hpre]
        exact h5

/-- C3 amended, witness: a singleton pipeline whose transformer fails
immediately (the concrete failing Normalize pipeline). -/
theorem c3_pipeline_fail_fast_witness :
    (∀ t ∈ [normalizeTransformer 0 (some 2) false none none], ∀ d,
      (t.transform d).1.metadata = d.metadata) ∧
    (pipeline_apply [normalizeTransformer 0 (some 2) false none none]
      ⟨[[0,1,2],[2,2,2],[100,101,102],[2,2,2]], [], []⟩).2 = true ∧
    ∃ k, k < ([normalizeTransformer 0 (some 2) false none none] : List TransformerM).length ∧
      (pipeline_apply ([normalizeTransformer 0 (some 2) false none none].take k)
        ⟨[[0,1,2],[2,2,2],[100,101,102],[2,2,2]], [], []⟩).2 = false := by
  have hm : ∀ t ∈ [normalizeTransformer 0 (some 2) false none none], ∀ d,
      (t.transform d).1.metadata = d.metadata := by
    intro t ht d
    simp only [List.mem_singleton] at ht
    subst ht
    rfl
  have hf : (pipeline_apply [normalizeTransformer 0 (some 2) false none none]
      ⟨[[0,1,2],[2,2,2],[100,101,102],[2,2,2]], [], []⟩).2 = true := by
    rw [normalize_pipeline_partial_eval]
  obtain ⟨k, hk, h1, -⟩ := c3_pipeline_fail_fast
    [normalizeTransformer 0 (some 2) false none none]
    ⟨[[0,1,2],[2,2,2],[100,101,102],[2,2,2]], [], []⟩ hm hf
  exact ⟨hm, hf, k, hk, h1⟩

theorem selectionIndices_eq (m : ℕ) (frames : List ℕ) (invert : Bool) :
    selectionIndices (2 * m) frames invert =
      ((frameNums m).filter (fun f => xor invert (frames.contains f))).flatMap framePair := by
  induction m with
  | zero => rfl
  | succ m ih =>
    have hr : List.range (2 * (m + 1)) = List.range (2 * m) ++ [2 * m, 2 * m + 1] := by
      have : 2 * (m + 1) = (2 * m + 1) + 1 := by ring
      rw [this, List.range_succ, List.range_succ]
      simp
    have hfr : frameNums (m + 1) = frameNums m ++ [m + 1] := by
      simp [frameNums, List.range_succ]
    have hdiv : 2 * m / 2 = m := by omega
    simp only [selectionIndices] at ih ⊢
    rw [hr, hfr]
    simp only [List.filter_append, List.flatMap_append]
    rw [ih]
    have htail : ([2 * m, 2 * m + 1].filter (fun n => decide (n % 2 = 0))) = [2 * m] := by
      have h1 : (2 * m) % 2 = 0 := by omega
      have h2 : (2 * m + 1) % 2 = 1 := by omega
      simp [List.filter, h1, h2]
    rw [htail]
    have hpred :
        ([2 * m].filter (fun n => xor invert (frames.contains (n / 2 + 1)))).flatMap
            (fun n => [n, n + 1]) =
          (([m + 1].filter (fun f => xor invert (frames.contains f))).flatMap framePair) := by
      simp only [List.filter_singleton, hdiv]
      cases hx : (invert ^^ frames.contains (m + 1))
      · simp
      · simp only [cond_true, List.flatMap_cons, List.flatMap_nil, framePair]
        simp
    rw [hpred]

theorem subtractPairs_flatMap (g1 g2 : ℕ → List OQ) (sel : List ℕ)
    (grid subys : List OQ) (direct : Bool) :
    subtractPairs grid subys direct (sel.flatMap (fun f => [g1 f, g2 f])) =
      sel.flatMap (fun f =>
        [(if direct then g1 f else grid),
         (if direct then g2 f
          else linear_resample_arrayOQ (g1 f) (g2 f) grid).zipWith OQ.sub subys]) := by
  induction sel with
  | nil => rfl
  | cons a sel ih =>
    rw [List.flatMap_cons, List.flatMap_cons]
    simp only [List.cons_append, List.nil_append]
    simp only [subtractPairs]
    rw [ih]

theorem length_flatMap_pair (l : List ℕ) (g : ℕ → List (List OQ))
    (hg : ∀ f, (g f).length = 2) : (l.flatMap g).length = 2 * l.length := by
  induction l with
  | nil => rfl
  | cons a l ih => simp [List.flatMap_cons, hg, ih]; ring

theorem select_frames_some (d : ColsOQ) (frames : List ℕ) (invert : Bool) (mins : ColsOQ)
    (h : select_frames d frames invert = some mins) :
    verify_frames_in_bounds d.length frames = true ∧
      mins = (selectionIndices d.length frames invert).map (fun i => d.getD i []) := by
  simp only [select_frames] at h
  split_ifs at h with h1 h2
  refine ⟨h1, ?_⟩
  have h3 := Option.some_injective _ h
  simpa using h3.symm

theorem filter_beq_self_of_nodup (l : List ℕ) (s : ℕ) (hn : l.Nodup) (hs : s ∈ l) :
    l.filter (fun x => x == s) = [s] := by
  induction l with
  | nil => cases hs
  | cons x xs ih =>
    rcases List.mem_cons.mp hs with hx | hx
    · subst hx
      have hnil : xs.filter (fun x => x == s) = [] := by
        rw [List.filter_eq_nil_iff]
        intro y hy
        simp only [beq_iff_eq]
        intro hys
        exact (List.nodup_cons.mp hn).1 (hys ▸ hy)
      rw [List.filter_cons_of_pos (by simp), hnil]
    · have hxs : x ≠ s := by
        intro hxs
        exact (List.nodup_cons.mp hn).1 (hxs ▸ hx)
      rw [List.filter_cons_of_neg (by simp [hxs])]
      exact ih (List.nodup_cons.mp hn).2 hx

theorem nodup_frameNums (m : ℕ) : (frameNums m).Nodup :=
  (List.nodup_range m).map (fun a b h => by omega)

theorem mem_frameNums (m f : ℕ) : f ∈ frameNums m ↔ 1 ≤ f ∧ f ≤ m := by
  simp only [frameNums, List.mem_map, List.mem_range]
  constructor
  · rintro ⟨a, ha, rfl⟩; omega
  · rintro ⟨h1, h2⟩; exact ⟨f - 1, by omega, by omega⟩

theorem length_filter_not_add (l : List ℕ) (p : ℕ → Bool) :
    (l.filter p).length + (l.filter (fun x => !(p x))).length = l.length :=
  (List.length_eq_length_filter_add p).symm

theorem pairwise_lt_sel (M : ℕ) (p : ℕ → Bool) :
    ((frameNums M).filter p).Pairwise (· < ·) :=
  List.Pairwise.filter p
    (List.Pairwise.map _ (fun a b h => by omega) (List.pairwise_lt_range M))

/-- C10: the claim says a successful `SubtractTransform` leaves exactly
the minuend frames, in their original dataset order, with the
subtrahend frame removed.  The selection is the ascending filter of the
1-based frame numbers (`sel`): the output has `2 * sel.length` columns
arranged frame by frame in that order, the subtrahend is not among
them, with `minuends = None` the frame count drops by exactly one, and
with an explicit list the selected frames are exactly the listed ones;
the final conjunct gives the output columns explicitly (each output
frame derives from its original frame's columns, resampled onto the
subtrahend grid unless `direct`). -/
theorem c10_subtract_frames_exact (d : ColsOQ) (s : ℕ) (m : Option (List ℕ)) (direct : Bool)
    (r : ColsOQ) (hev : d.length % 2 = 0)
    (h : subtract_transform s m direct d = some r) :
    ∃ sel : List ℕ,
      sel = (frameNums (d.length / 2)).filter (fun f =>
        match m with
        | none => decide (f ≠ s)
        | some l => decide (f ∈ l)) ∧
      r.length = 2 * sel.length ∧
      sel.Pairwise (· < ·) ∧
      s ∉ sel ∧
      (m = none → sel.length + 1 = d.length / 2) ∧
      (∀ l, m = some l → ∀ f, f ∈ sel ↔ f ∈ l) ∧
      r = sel.flatMap (fun f =>
        [(if direct then d.getD (2 * (f - 1)) [] else d.getD (2 * (s - 1)) []),
         (if direct then d.getD (2 * (f - 1) + 1) []
          else linear_resample_arrayOQ (d.getD (2 * (f - 1)) []) (d.getD (2 * (f - 1) + 1) [])
                 (d.getD (2 * (s - 1)) [])).zipWith OQ.sub (d.getD (2 * (s - 1) + 1) [])]) := by
  have hM : d.length = 2 * (d.length / 2) := by omega
  rcases m with _ | l
  -- minuends = None: select all but the subtrahend
  · cases hmins : select_frames d [s] true with
    | none => simp [subtract_transform, hmins] at h
    | some mins =>
      cases hsub : select_frames d [s] false with
      | none => simp [subtract_transform, hmins, hsub] at h
      | some sub =>
        have hr : r = subtractPairs (sub.getD 0 []) (sub.getD 1 []) direct mins := by
          have h' := h
          simp [subtract_transform, hmins, hsub] at h'
          simpa using h'.symm
        obtain ⟨hv, hmins_eq⟩ := select_frames_some _ _ _ _ hmins
        obtain ⟨-, hsub_eq⟩ := select_frames_some _ _ _ _ hsub
        have hsb : s ≠ 0 ∧ (s - 1) * 2 < d.length := by
          simpa [verify_frames_in_bounds] using hv
        have hsM : 1 ≤ s ∧ s ≤ d.length / 2 := by omega
        have hmemS : s ∈ frameNums (d.length / 2) := (mem_frameNums _ _).mpr hsM
        -- the subtrahend's own two columns
        have hselS : selectionIndices d.length [s] false = framePair s := by
          conv_lhs => rw [hM]
          rw [selectionIndices_eq]
          have hfs : (frameNums (d.length / 2)).filter
              (fun f => xor false ([s].contains f)) = [s] := by
            rw [List.filter_congr (fun f _ => ?_)]
            · exact filter_beq_self_of_nodup _ s (nodup_frameNums _) hmemS
            · show (xor false ([s].contains f)) = (f == s)
              by_cases hfs : f = s <;> simp [hfs, List.elem_eq_mem]
          rw [hfs]
          simp
        have hsubCols : sub = [d.getD (2 * (s - 1)) [], d.getD (2 * (s - 1) + 1) []] := by
          rw [hsub_eq, hselS, framePair]
          simp
        -- the minuends selection is the claimed frame filter
        have hpred : (frameNums (d.length / 2)).filter (fun f => xor true ([s].contains f)) =
            (frameNums (d.length / 2)).filter (fun f => decide (f ≠ s)) := by
          refine List.filter_congr (fun f _ => ?_)
          show (xor true ([s].contains f)) = decide (f ≠ s)
          by_cases hfs : f = s <;> simp [hfs, List.elem_eq_mem]
        have hSel : selectionIndices d.length [s] true =
            ((frameNums (d.length / 2)).filter
              (fun f => xor true ([s].contains f))).flatMap framePair := by
          conv_lhs => rw [hM]
          rw [selectionIndices_eq]
        have hminsCols : mins = ((frameNums (d.length / 2)).filter
            (fun f => decide (f ≠ s))).flatMap (fun f =>
              [d.getD (2 * (f - 1)) [], d.getD (2 * (f - 1) + 1) []]) := by
          rw [hmins_eq, hSel, hpred, List.map_flatMap]
          simp [framePair]
        refine ⟨(frameNums (d.length / 2)).filter (fun f => decide (f ≠ s)), rfl,
          ?_, pairwise_lt_sel _ _, ?_, ?_, ?_, ?_⟩
        · rw [hr, hminsCols, subtractPairs_flatMap]
          exact length_flatMap_pair _ _ (fun f => by by_cases hd : direct <;> simp [hd])
        · intro hmem
          simp at hmem
        · intro _
          have herase := (nodup_frameNums (d.length / 2)).erase_eq_filter s
          have hcg : (frameNums (d.length / 2)).filter (fun x => x != s) =
              (frameNums (d.length / 2)).filter (fun f => decide (f ≠ s)) :=
            List.filter_congr (fun f _ => by by_cases hfs : f = s <;> simp [hfs])
          rw [hcg] at herase
          rw [← herase]
          have hlene := List.length_erase_of_mem hmemS
          have hlen : (frameNums (d.length / 2)).length = d.length / 2 := by
            simp [frameNums]
          omega
        · intro l hl
          cases hl
        · rw [hr, hsubCols, hminsCols, subtractPairs_flatMap]
          simp
  -- minuends = Some l: the explicitly listed frames
  · by_cases hcont : l.contains s
    · have hmem : s ∈ l := by simpa [List.elem_eq_mem] using hcont
      simp [subtract_transform, List.elem_eq_mem, hmem] at h
    · cases hmins : select_frames d l false with
      | none => simp [subtract_transform, hcont, hmins] at h
      | some mins =>
        cases hsub : select_frames d [s] false with
        | none => simp [subtract_transform, hcont, hmins, hsub] at h
        | some sub =>
          have hr : r = subtractPairs (sub.getD 0 []) (sub.getD 1 []) direct mins := by
            have h' := h
            simp [subtract_transform, hcont, hmins, hsub] at h'
            simpa using h'.2.symm
          obtain ⟨hv, hmins_eq⟩ := select_frames_some _ _ _ _ hmins
          obtain ⟨hvs, hsub_eq⟩ := select_frames_some _ _ _ _ hsub
          have hsb : s ≠ 0 ∧ (s - 1) * 2 < d.length := by
            simpa [verify_frames_in_bounds] using hvs
          have hsM : 1 ≤ s ∧ s ≤ d.length / 2 := by omega
          have hmemS : s ∈ frameNums (d.length / 2) := (mem_frameNums _ _).mpr hsM
          have hbounds : ∀ f ∈ l, f ≠ 0 ∧ (f - 1) * 2 < d.length := by
            intro f hf
            have := (List.all_eq_true.mp hv) f hf
            simpa using this
          have hselS : selectionIndices d.length [s] false = framePair s := by
            conv_lhs => rw [hM]
            rw [selectionIndices_eq]
            have hfs : (frameNums (d.length / 2)).filter
                (fun f => xor false ([s].contains f)) = [s] := by
              rw [List.filter_congr (fun f _ => ?_)]
              · exact filter_beq_self_of_nodup _ s (nodup_frameNums _) hmemS
              · show (xor false ([s].contains f)) = (f == s)
                by_cases hfs : f = s <;> simp [hfs, List.elem_eq_mem]
            rw [hfs]
            simp
          have hsubCols : sub = [d.getD (2 * (s - 1)) [], d.getD (2 * (s - 1) + 1) []] := by
            rw [hsub_eq, hselS, framePair]
            simp
          have hpred : (frameNums (d.length / 2)).filter
              (fun f => xor false (l.contains f)) =
              (frameNums (d.length / 2)).filter (fun f => decide (f ∈ l)) := by
            refine List.filter_congr (fun f _ => ?_)
            show (xor false (l.contains f)) = decide (f ∈ l)
            by_cases hfs : f ∈ l <;> simp [hfs, List.elem_eq_mem]
          have hSel : selectionIndices d.length l false =
              ((frameNums (d.length / 2)).filter
                (fun f => xor false (l.contains f))).flatMap framePair := by
            conv_lhs => rw [hM]
            rw [selectionIndices_eq]
          have hminsCols : mins = ((frameNums (d.length / 2)).filter
              (fun f => decide (f ∈ l))).flatMap (fun f =>
                [d.getD (2 * (f - 1)) [], d.getD (2 * (f - 1) + 1) []]) := by
            rw [hmins_eq, hSel, hpred, List.map_flatMap]
            simp [framePair]
          have hnotmem : s ∉ l := by
            intro hmem
            rw [show (l.contains s) = decide (s ∈ l) from by simp [List.elem_eq_mem]] at hcont
            simp [hmem] at hcont
          refine ⟨(frameNums (d.length / 2)).filter (fun f => decide (f ∈ l)), rfl,
            ?_, pairwise_lt_sel _ _, ?_, ?_, ?_, ?_⟩
          · rw [hr, hminsCols, subtractPairs_flatMap]
            exact length_flatMap_pair _ _ (fun f => by by_cases hd : direct <;> simp [hd])
          · intro hmem
            rw [List.mem_filter] at hmem
            exact hnotmem (by simpa using hmem.2)
          · intro hn
            cases hn
          · intro l' hl' f
            cases hl'
            rw [List.mem_filter]
            constructor
            · rintro ⟨-, hf⟩
              simpa using hf
            · intro hf
              refine ⟨?_, by simpa using hf⟩
              have hb := hbounds f hf
              exact (mem_frameNums _ _).mpr (by omega)
          · rw [hr, hsubCols, hminsCols, subtractPairs_flatMap]
            simp

/-- C10 witness: a two-frame dataset, subtrahend 1, minuends
unspecified, direct subtraction. -/
theorem c10_subtract_frames_exact_witness :
    ([[some 0], [some 1], [some 2], [some 3]] : ColsOQ).length % 2 = 0 ∧
    subtract_transform 1 none true [[some 0], [some 1], [some 2], [some 3]] =
      some [[some 2], [some 2]] ∧
    ∃ sel : List ℕ,
      sel = (frameNums (([[some 0], [some 1], [some 2], [some 3]] : ColsOQ).length / 2)).filter
        (fun f => decide (f ≠ 1)) ∧
      ([[some 2], [some 2]] : ColsOQ).length = 2 * sel.length := by
  have hev : ([[some 0], [some 1], [some 2], [some 3]] : ColsOQ).length % 2 = 0 := by decide
  have hrun : subtract_transform 1 none true [[some 0], [some 1], [some 2], [some 3]] =
      some [[some 2], [some (3 - 1)]] := rfl
  have hrun' : subtract_transform 1 none true [[some 0], [some 1], [some 2], [some 3]] =
      some [[some 2], [some 2]] := by
    rw [hrun]
    norm_num
  obtain ⟨sel, hsel, hlen, -, -, -, -, -⟩ :=
    c10_subtract_frames_exact [[some 0], [some 1], [some 2], [some 3]] 1 none true
      [[some 2], [some 2]] hev hrun'
  exact ⟨hev, hrun', sel, by simpa using hsel, hlen⟩

theorem isPre_append (p s : Str) : isPre p (p ++ s) = true := by
  induction p with
  | nil => rfl
  | cons c cs ih => simp [isPre, ih]

theorem stripPre_append (p s : Str) : stripPre p (p ++ s) = some s := by
  simp [stripPre, isPre_append, List.drop_left]

theorem hasSub_cons_false {p : Str} {c : Char} {cs : Str} (h : hasSub p (c :: cs) = false) :
    isPre p (c :: cs) = false ∧ hasSub p cs = false := by
  simpa [hasSub] using h

theorem hasSub_of_isPre (p s : Str) (hp : p ≠ []) (h : isPre p s = true) : hasSub p s = true := by
  cases s with
  | nil =>
    cases p with
    | nil => exact absurd rfl hp
    | cons a as => simp [isPre] at h
  | cons c cs => simp [hasSub, h]

theorem isPre_ne_head (p s : Str) (c d : Char) (hp : p.head? = some c) (hs : s.head? = some d)
    (h : c ≠ d) : isPre p s = false := by
  cases p with
  | nil => simp at hp
  | cons a as =>
    cases s with
    | nil => simp at hs
    | cons b bs =>
      simp only [List.head?_cons, Option.some.injEq] at hp hs
      subst hp; subst hs
      simp [isPre, h]

theorem splitD3_append (b : Str) : ∀ (a : Str), hasSub dash3 a = false →
    a.getLast? ≠ some '-' → splitD3 (a ++ dash3 ++ b) = a :: splitD3 b := by
  intro a
  induction a with
  | nil =>
    intro _ _
    show splitD3 ('-' :: '-' :: '-' :: b) = [] :: splitD3 b
    rw [splitD3.eq_1]
  | cons c a1 ih =>
    intro ha hl
    have hparts := hasSub_cons_false ha
    have hside : ∀ rest : Str, c = '-' → (a1 ++ dash3 ++ b) = '-' :: '-' :: rest → False := by
      intro rest hc hcs
      subst hc
      cases a1 with
      | nil => exact hl (by simp)
      | cons d a2 =>
        cases a2 with
        | nil =>
          have hd : d = '-' := by
            have : d :: (dash3 ++ b) = '-' :: '-' :: rest := by simpa using hcs
            exact (List.cons.injEq _ _ _ _ ▸ this).1
          exact hl (by simp [hd])
        | cons e a3 =>
          have hde : d = '-' ∧ e = '-' := by
            have : d :: e :: (a3 ++ dash3 ++ b) = '-' :: '-' :: rest := by simpa using hcs
            have h1 := (List.cons.injEq _ _ _ _ ▸ this).1
            have h2 := (List.cons.injEq _ _ _ _ ▸ this).2
            have h3 := (List.cons.injEq _ _ _ _ ▸ h2).1
            exact ⟨h1, h3⟩
          have : isPre dash3 ('-' :: d :: e :: a3) = true := by
            rw [hde.1, hde.2]
            show isPre (['-', '-', '-'] : Str) ('-' :: '-' :: '-' :: a3) = true
            simp [isPre]
          rw [this] at hparts
          exact absurd hparts.1 (by simp)
    have hgoal : splitD3 ((c :: a1) ++ dash3 ++ b) = splitD3 (c :: (a1 ++ dash3 ++ b)) := by
      simp
    rw [hgoal, splitD3.eq_3 c _ hside]
    have hl' : a1.getLast? ≠ some '-' := by
      cases a1 with
      | nil => simp
      | cons d a2 =>
        rw [List.getLast?_cons_cons] at hl
        exact hl
    rw [ih hparts.2 hl']

theorem removeHashSp_id (s : Str) (h : hasSub hashSp s = false) : removeHashSp s = s := by
  induction s with
  | nil => rfl
  | cons c cs ih =>
    have hparts := hasSub_cons_false h
    have hside : ∀ rest : Str, c = '#' → cs = ' ' :: rest → False := by
      intro rest hc hcs
      subst hc; subst hcs
      have : isPre hashSp ('#' :: ' ' :: rest) = true := by
        show isPre (['#', ' '] : Str) ('#' :: ' ' :: rest) = true
        simp [isPre]
      rw [this] at hparts
      exact absurd hparts.1 (by simp)
    rw [removeHashSp.eq_3 c cs hside, ih hparts.2]

theorem trimStr_cons_nl (s : Str) : trimStr ('\n' :: s) = trimStr s := by
  have hws : isWs '\n' = true := rfl
  simp [trimStr, List.dropWhile_cons, hws]

theorem trimStr_append_nl (s : Str) : trimStr (s ++ ['\n']) = trimStr s := by
  have hws : isWs '\n' = true := rfl
  unfold trimStr
  rw [List.dropWhile_append]
  by_cases he : (s.dropWhile isWs).isEmpty
  · rw [if_pos he]
    have h1 : List.dropWhile isWs ['\n'] = [] := by simp [List.dropWhile_cons, hws]
    have h2 : s.dropWhile isWs = [] := by simpa [List.isEmpty_iff] using he
    rw [h1, h2]
  · rw [if_neg he]
    rw [List.reverse_append]
    simp [List.dropWhile_cons, hws]

theorem joinNl_cons_ex (l : Str) (ls : List Str) : ∃ x, joinNl (l :: ls) = l ++ x := by
  cases ls with
  | nil => exact ⟨[], by simp [joinNl]⟩
  | cons l2 ls2 => exact ⟨'\n' :: joinNl (l2 :: ls2), rfl⟩

theorem digitsLE_eq (fuel : ℕ) : ∀ n : ℕ, n ≤ fuel → digitsLE fuel n = Nat.digits 10 n := by
  induction fuel with
  | zero =>
    intro n hn
    have : n = 0 := by omega
    subst this
    simp [digitsLE]
  | succ fuel ih =>
    intro n hn
    cases n with
    | zero => simp [digitsLE]
    | succ m =>
      have hdiv : (m + 1) / 10 ≤ fuel := by
        have := Nat.div_lt_self (show 0 < m + 1 by omega) (show 1 < 10 by omega)
        omega
      conv_rhs => rw [Nat.digits_def' (by norm_num : (1 : ℕ) < 10) (by omega : 0 < m + 1)]
      rw [digitsLE, ih _ hdiv]

theorem digit_char_isDigit (d : ℕ) (h : d < 10) : isDigitCh (Char.ofNat (48 + d)) = true := by
  interval_cases d <;> decide

theorem digit_char_val (d : ℕ) (h : d < 10) : digitVal (Char.ofNat (48 + d)) = d := by
  interval_cases d <;> decide

theorem natStr_all_digits (n : ℕ) : (natStr n).all isDigitCh = true := by
  by_cases h0 : n = 0
  · subst h0; decide
  · unfold natStr
    rw [if_neg h0, digitsLE_eq n n le_rfl, List.all_eq_true]
    intro c hc
    rw [List.mem_map] at hc
    obtain ⟨d, hd, rfl⟩ := hc
    exact digit_char_isDigit d
      (Nat.digits_lt_base (by norm_num) (List.mem_reverse.mp hd))

theorem natStr_ne_nil (n : ℕ) : natStr n ≠ [] := by
  by_cases h0 : n = 0
  · subst h0; decide
  · unfold natStr
    rw [if_neg h0, digitsLE_eq n n le_rfl]
    simp [Nat.digits_ne_nil_iff_ne_zero, h0]

theorem parseNat_natStr (n : ℕ) : parseNat (natStr n) = some n := by
  by_cases h0 : n = 0
  · subst h0; decide
  · unfold parseNat
    rw [if_pos ⟨natStr_ne_nil n, natStr_all_digits n⟩]
    congr 1
    unfold natStr
    rw [if_neg h0, digitsLE_eq n n le_rfl]
    rw [List.map_map, List.map_reverse, List.reverse_reverse]
    have hgen : ∀ l : List ℕ, (∀ d ∈ l, d < 10) →
        l.map (digitVal ∘ fun d => Char.ofNat (48 + d)) = l := by
      intro l hl
      induction l with
      | nil => rfl
      | cons d ds ihl =>
        have hd := digit_char_val d (hl d (by simp))
        simp only [List.map_cons, Function.comp_apply, hd,
          ihl (fun x hx => hl x (List.mem_cons_of_mem _ hx))]
    rw [hgen _ (fun d hd => Nat.digits_lt_base (by norm_num) hd), Nat.ofDigits_digits]

theorem takeWhile_all_append (p : Char → Bool) (x : Str) (c : Char) (y : Str)
    (hx : x.all p = true) (hc : p c = false) :
    (x ++ c :: y).takeWhile p = x ∧ (x ++ c :: y).dropWhile p = c :: y := by
  induction x with
  | nil => simp [List.takeWhile_cons, List.dropWhile_cons, hc]
  | cons a xs ih =>
    rw [List.all_cons, Bool.and_eq_true] at hx
    have := ih hx.2
    simp [List.takeWhile_cons, List.dropWhile_cons, hx.1, this.1, this.2]

theorem parseRatPos_enc (a b : ℕ) :
    parseRatPos (natStr a ++ '/' :: natStr b) = some ((a : ℚ) / (b : ℚ)) := by
  unfold parseRatPos
  have hsplit := takeWhile_all_append isDigitCh (natStr a) '/' (natStr b)
    (natStr_all_digits a) (by decide)
  rw [hsplit.1, hsplit.2]
  simp [parseNat_natStr]

theorem natStr_head_not_dash (n : ℕ) : (natStr n).take 1 ≠ ['-'] := by
  intro h
  cases hs : natStr n with
  | nil => exact natStr_ne_nil n hs
  | cons c cs =>
    rw [hs] at h
    have hc : c = '-' := by simpa using h
    have hall := natStr_all_digits n
    rw [hs, List.all_cons, Bool.and_eq_true] at hall
    rw [hc] at hall
    exact absurd hall.1 (by decide)

theorem parseRat_ratStr (q : ℚ) : parseRat (ratStr q) = some q := by
  unfold parseRat ratStr
  by_cases hneg : q.num < 0
  · rw [if_pos hneg]
    simp only [List.cons_append, List.singleton_append]
    rw [if_pos (by simp)]
    simp only [List.drop_succ_cons, List.drop_zero, List.nil_append]
    rw [parseRatPos_enc]
    have habs : ((q.num.natAbs : ℚ)) = -(q.num : ℚ) := by
      rw [Int.cast_natAbs, abs_of_neg hneg]
      push_cast
      ring
    rw [habs]
    simp only [Option.map_some', Option.some.injEq, neg_div, neg_neg]
    exact Rat.num_div_den q
  · rw [if_neg hneg]
    simp only [List.nil_append]
    have htake : ((natStr q.num.natAbs ++ '/' :: natStr q.den) : Str).take 1 =
        (natStr q.num.natAbs).take 1 := by
      cases hs : natStr q.num.natAbs with
      | nil => exact absurd hs (natStr_ne_nil _)
      | cons c cs => simp
    rw [htake, if_neg (natStr_head_not_dash q.num.natAbs)]
    rw [parseRatPos_enc]
    congr 1
    have habs : ((q.num.natAbs : ℚ)) = (q.num : ℚ) := by
      rw [Int.cast_natAbs, abs_of_nonneg (not_lt.mp hneg)]
    rw [habs, Rat.num_div_den]

theorem parseBool_boolStr (b : Bool) : parseBool (boolStr b) = some b := by
  cases b <;> rfl

theorem parseChar_charStr (c : Char) : parseChar (charStr c) = some c := rfl

theorem ratStr_ne_tilde (q : ℚ) : ratStr q ≠ ['~'] := by
  intro h
  have h3 : 3 ≤ (ratStr q).length := by
    unfold ratStr
    have ha := natStr_ne_nil q.num.natAbs
    have hb := natStr_ne_nil q.den
    have ha' : 1 ≤ (natStr q.num.natAbs).length := List.length_pos.mpr ha
    have hb' : 1 ≤ (natStr q.den).length := List.length_pos.mpr hb
    simp only [List.length_append, List.length_cons]
    by_cases hs : q.num < 0 <;> simp [hs] <;> omega
  rw [h] at h3
  simp at h3

theorem parseOptRat_enc (o : Option ℚ) :
    parseOptRat (match o with | none => ['~'] | some q => ratStr q) = some o := by
  cases o with
  | none => rfl
  | some q =>
    unfold parseOptRat
    rw [if_neg (ratStr_ne_tilde q), parseRat_ratStr]
    rfl

theorem pOne_cons (key : Str) (f : Str → Option α) (v : Str) (rest : List Str) :
    pOne key f (kvLine key v :: rest) = (f v).map (fun x => (x, rest)) := by
  simp only [pOne, kvLine, stripPre_append]
  rfl

theorem pItemsNat_enc (l : List ℕ) (rest : List Str)
    (hrest : ∀ r0 rs, rest = r0 :: rs → isPre dashSp r0 = false) :
    pItemsNat (l.map (fun n => dashSp ++ natStr n) ++ rest) = some (l, rest) := by
  induction l with
  | nil =>
    cases hr : rest with
    | nil => rfl
    | cons r0 rs =>
      simp only [List.map_nil, List.nil_append]
      rw [pItemsNat]
      rw [show stripPre dashSp r0 = none from by
        unfold stripPre
        rw [hrest r0 rs hr]
        rfl]
  | cons n ns ih =>
    simp only [List.map_cons, List.cons_append]
    rw [pItemsNat]
    rw [stripPre_append]
    simp only [parseNat_natStr, ih, Option.bind_some, Option.map_some']
    rfl

theorem ne_append_of_ne_suffix {key a b : Str} (h : a ≠ b) : key ++ a ≠ key ++ b := by
  intro hc
  exact h (List.append_cancel_left hc)

theorem pListNat_cons (key l : Str) (rest : List Str) :
    pListNat key (l :: rest) =
      if l = key ++ (": []").toList then some ([], rest)
      else if l = key ++ (":").toList then pItemsNat rest
      else none := rfl

theorem pOptListNat_cons (key l : Str) (rest : List Str) :
    pOptListNat key (l :: rest) =
      if l = key ++ (": ~").toList then some (none, rest)
      else (pListNat key (l :: rest)).map (fun r => (some r.1, r.2)) := rfl

theorem pListNat_enc (key : Str) (l : List ℕ) (rest : List Str)
    (hrest : ∀ r0 rs, rest = r0 :: rs → isPre dashSp r0 = false) :
    pListNat key (encListNat key l ++ rest) = some (l, rest) := by
  cases l with
  | nil =>
    simp only [encListNat, List.isEmpty_nil, if_true, List.singleton_append]
    rw [pListNat_cons, if_pos rfl]
  | cons n ns =>
    simp only [encListNat, List.isEmpty_cons, Bool.false_eq_true, if_false, List.cons_append]
    rw [pListNat_cons]
    rw [if_neg (ne_append_of_ne_suffix (by decide)), if_pos rfl]
    exact pItemsNat_enc (n :: ns) rest hrest

theorem pOptListNat_enc (key : Str) (o : Option (List ℕ)) (rest : List Str)
    (hrest : ∀ r0 rs, rest = r0 :: rs → isPre dashSp r0 = false) :
    pOptListNat key (encOptListNat key o ++ rest) = some (o, rest) := by
  cases o with
  | none =>
    simp only [encOptListNat, List.singleton_append]
    rw [pOptListNat_cons, if_pos rfl]
  | some l =>
    rw [show encOptListNat key (some l) = encListNat key l from rfl]
    cases hh : encListNat key l ++ rest with
    | nil =>
      exact absurd hh (by cases l <;> simp [encListNat])
    | cons h0 hs =>
      have henc := pListNat_enc key l rest hrest
      rw [hh] at henc
      rw [pOptListNat_cons, if_neg ?hne]
      case hne =>
        intro hc
        rw [hc] at hh
        cases l with
        | nil =>
          have := (List.cons.injEq _ _ _ _).mp hh.symm
          exact absurd (List.append_cancel_left this.1) (by decide)
        | cons m ms =>
          have := (List.cons.injEq _ _ _ _).mp hh.symm
          exact absurd (List.append_cancel_left this.1) (by decide)
      rw [henc]
      rfl

theorem pPairItemsQ_enc (l : List (ℚ × ℚ)) (rest : List Str)
    (hrest : ∀ r0 rs, rest = r0 :: rs → isPre dashASp r0 = false) :
    pPairItemsQ (l.flatMap (fun p => [dashASp ++ ratStr p.1, spBSp ++ ratStr p.2]) ++ rest) =
      some (l, rest) := by
  induction l with
  | nil =>
    simp only [List.flatMap_nil, List.nil_append]
    cases hr : rest with
    | nil => rfl
    | cons r0 rs =>
      have h0 : stripPre dashASp r0 = none := by
        unfold stripPre
        rw [hrest r0 rs hr]
        rfl
      cases rs with
      | nil => simp only [pPairItemsQ, h0]
      | cons r1 rs2 => simp only [pPairItemsQ, h0]
  | cons p ps ih =>
    simp only [List.flatMap_cons, List.cons_append, List.nil_append]
    simp only [pPairItemsQ, stripPre_append]
    simp only [parseRat_ratStr, ih, Option.bind_some, Option.map_some]
    simp [parseRat_ratStr]

theorem pPairListQ_cons (key l : Str) (rest : List Str) :
    pPairListQ key (l :: rest) =
      if l = key ++ (": []").toList then some ([], rest)
      else if l = key ++ (":").toList then pPairItemsQ rest
      else none := rfl

theorem pPairListQ_enc (key : Str) (l : List (ℚ × ℚ)) (rest : List Str)
    (hrest : ∀ r0 rs, rest = r0 :: rs → isPre dashASp r0 = false) :
    pPairListQ key (encPairListQ key l ++ rest) = some (l, rest) := by
  cases l with
  | nil =>
    simp only [encPairListQ, List.isEmpty_nil, if_true, List.singleton_append]
    rw [pPairListQ_cons, if_pos rfl]
  | cons p ps =>
    simp only [encPairListQ, List.isEmpty_cons, Bool.false_eq_true, if_false, List.cons_append]
    rw [pPairListQ_cons]
    rw [if_neg (ne_append_of_ne_suffix (by decide)), if_pos rfl]
    exact pPairItemsQ_enc (p :: ps) rest hrest

theorem pPairItemsN_enc (l : List (ℕ × ℕ)) (rest : List Str)
    (hrest : ∀ r0 rs, rest = r0 :: rs → isPre dashASp r0 = false) :
    pPairItemsN (l.flatMap (fun p => [dashASp ++ natStr p.1, spBSp ++ natStr p.2]) ++ rest) =
      some (l, rest) := by
  induction l with
  | nil =>
    simp only [List.flatMap_nil, List.nil_append]
    cases hr : rest with
    | nil => rfl
    | cons r0 rs =>
      have h0 : stripPre dashASp r0 = none := by
        unfold stripPre
        rw [hrest r0 rs hr]
        rfl
      cases rs with
      | nil => simp only [pPairItemsN, h0]
      | cons r1 rs2 => simp only [pPairItemsN, h0]
  | cons p ps ih =>
    simp only [List.flatMap_cons, List.cons_append, List.nil_append]
    simp only [pPairItemsN, stripPre_append]
    simp only [parseNat_natStr, ih, Option.bind_some, Option.map_some]
    simp [parseNat_natStr]

theorem pPairListN_cons (key l : Str) (rest : List Str) :
    pPairListN key (l :: rest) =
      if l = key ++ (": []").toList then some ([], rest)
      else if l = key ++ (":").toList then pPairItemsN rest
      else none := rfl

theorem pPairListN_enc (key : Str) (l : List (ℕ × ℕ)) (rest : List Str)
    (hrest : ∀ r0 rs, rest = r0 :: rs → isPre dashASp r0 = false) :
    pPairListN key (encPairListN key l ++ rest) = some (l, rest) := by
  cases l with
  | nil =>
    simp only [encPairListN, List.isEmpty_nil, if_true, List.singleton_append]
    rw [pPairListN_cons, if_pos rfl]
  | cons p ps =>
    simp only [encPairListN, List.isEmpty_cons, Bool.false_eq_true, if_false, List.cons_append]
    rw [pPairListN_cons]
    rw [if_neg (ne_append_of_ne_suffix (by decide)), if_pos rfl]
    exact pPairItemsN_enc (p :: ps) rest hrest

theorem pOptPairQ_cons (key l : Str) (rest : List Str) :
    pOptPairQ key (l :: rest) =
      if l = key ++ (": ~").toList then some (none, rest)
      else if l = key ++ (":").toList then
        match rest with
        | la :: lb :: rest2 =>
          (stripPre spASp la).bind (fun va =>
            (stripPre spBSp lb).bind (fun vb =>
              (parseRat va).bind (fun a =>
                (parseRat vb).map (fun b => (some (a, b), rest2)))))
        | _ => none
      else none := rfl

theorem pOptPairQ_enc (key : Str) (o : Option (ℚ × ℚ)) (rest : List Str) :
    pOptPairQ key (encOptPairQ key o ++ rest) = some (o, rest) := by
  cases o with
  | none =>
    simp only [encOptPairQ, List.singleton_append]
    rw [pOptPairQ_cons, if_pos rfl]
  | some p =>
    simp only [encOptPairQ, List.cons_append, List.nil_append]
    rw [pOptPairQ_cons, if_neg (ne_append_of_ne_suffix (by decide)), if_pos rfl]
    simp only [stripPre_append, parseRat_ratStr, Option.bind_some, Option.map_some]
    simp [parseRat_ratStr]

theorem expectTag_cons (name l : Str) (rest : List Str) :
    expectTag name (l :: rest) = if l = tagPre ++ name then some rest else none := rfl

theorem finishWith_nil (t : Transform) : finishWith t [] = some t := rfl

theorem isPre_keyapp_false (p key s : Str) (c d : Char) (hp : p.head? = some c)
    (hk : key.head? = some d) (h : c ≠ d) : isPre p (key ++ s) = false := by
  apply isPre_ne_head p _ c d hp ?_ h
  cases key with
  | nil => simp at hk
  | cons a as =>
    simp only [List.head?_cons, Option.some.injEq] at hk
    subst hk
    rfl

theorem isPre_kv_false (p key v : Str) (c d : Char) (hp : p.head? = some c)
    (hk : key.head? = some d) (h : c ≠ d) : isPre p (kvLine key v) = false := by
  rw [kvLine, List.append_assoc]
  exact isPre_keyapp_false p key _ c d hp hk h

theorem pOne_tilde (key : Str) (f : Str → Option α) (rest : List Str) :
    pOne key f ((key ++ (": ~").toList) :: rest) = (f ['~']).map (fun x => (x, rest)) := by
  have h : key ++ (": ~").toList = kvLine key ['~'] := by
    simp [kvLine, colonSp]
  rw [h, pOne_cons]

theorem parseOptRat_ratStr (q : ℚ) : parseOptRat (ratStr q) = some (some q) :=
  parseOptRat_enc (some q)

theorem parseOptRat_tilde : parseOptRat ['~'] = some none := rfl

theorem parseAlign_enc (q : ℚ) :
    parseAlign (encodeLines (.align q)) = some (.align q) := by
  simp only [parseAlign, encodeLines, nameOf]
  rw [expectTag_cons, if_pos rfl]
  simp only [Option.bind_eq_bind, Option.some_bind]
  rw [pOne_cons]
  simp [parseRat_ratStr, finishWith]

theorem parseAverage_enc :
    parseAverage (encodeLines .average) = some .average := by
  simp only [parseAverage, encodeLines, nameOf]
  rw [expectTag_cons, if_pos rfl]
  simp [finishWith]

theorem parseAppend_enc (fp : Option Str) (c d : Char) (h : Bool)
    (hfp : paramsOk (.append fp c d h)) :
    parseAppend (encodeLines (.append fp c d h)) = some (.append fp c d h) := by
  simp only [parseAppend, encodeLines, nameOf]
  rw [expectTag_cons, if_pos rfl]
  simp only [Option.bind_eq_bind, Option.some_bind]
  cases fp with
  | none =>
    rw [show encOptStr (("filepath").toList) none =
        ("filepath").toList ++ (": ~").toList from rfl]
    rw [pOne_tilde]
    rw [show parseOptStr ['~'] = some none from rfl]
    simp only [Option.map_some', Option.map_some, Option.bind_eq_bind, Option.some_bind]
    rw [pOne_cons]
    simp only [parseChar_charStr, Option.map_some', Option.map_some, Option.bind_eq_bind, Option.some_bind]
    rw [pOne_cons]
    simp only [parseChar_charStr, Option.map_some', Option.map_some, Option.bind_eq_bind, Option.some_bind]
    rw [pOne_cons]
    simp [parseBool_boolStr, finishWith]
  | some p =>
    have hp : p ≠ ['~'] := hfp
    rw [show encOptStr (("filepath").toList) (some p) =
        kvLine (("filepath").toList) p from rfl]
    rw [pOne_cons]
    rw [show parseOptStr p = some (some p) from by simp [parseOptStr, hp]]
    simp only [Option.map_some', Option.map_some, Option.bind_eq_bind, Option.some_bind]
    rw [pOne_cons]
    simp only [parseChar_charStr, Option.map_some', Option.map_some, Option.bind_eq_bind, Option.some_bind]
    rw [pOne_cons]
    simp only [parseChar_charStr, Option.map_some', Option.map_some, Option.bind_eq_bind, Option.some_bind]
    rw [pOne_cons]
    simp [parseBool_boolStr, finishWith]

theorem parseBaseline_enc (pts : List (ℚ × ℚ)) (st : Bool) :
    parseBaseline (encodeLines (.baseline pts st)) = some (.baseline pts st) := by
  have hrest : ∀ r0 rs, ([kvLine (("store").toList) (boolStr st)] : List Str) = r0 :: rs →
      isPre dashASp r0 = false := by
    intro r0 rs hr
    have h0 : r0 = kvLine (("store").toList) (boolStr st) :=
      (((List.cons.injEq _ _ _ _).mp hr.symm)).1
    rw [h0]
    exact isPre_kv_false _ _ _ '-' 's' rfl rfl (by decide)
  simp only [parseBaseline, encodeLines, nameOf]
  rw [expectTag_cons, if_pos rfl]
  simp only [Option.bind_eq_bind, Option.some_bind]
  rw [pPairListQ_enc _ _ _ hrest]
  simp only [Option.bind_eq_bind, Option.some_bind]
  rw [pOne_cons]
  simp [parseBool_boolStr, finishWith]

theorem parseCalibration_enc (pts : List (ℚ × ℚ)) :
    parseCalibration (encodeLines (.calibration pts)) = some (.calibration pts) := by
  simp only [parseCalibration, encodeLines, nameOf]
  rw [expectTag_cons, if_pos rfl]
  simp only [Option.bind_eq_bind, Option.some_bind]
  rw [show encPairListQ (("points").toList) pts =
      encPairListQ (("points").toList) pts ++ [] from (List.append_nil _).symm]
  rw [pPairListQ_enc _ _ _ (by intro r0 rs hr; cases hr)]
  simp [finishWith]

theorem parseCountConversion_enc (e cf : ℚ) :
    parseCountConversion (encodeLines (.countConversion e cf)) =
      some (.countConversion e cf) := by
  simp only [parseCountConversion, encodeLines, nameOf]
  rw [expectTag_cons, if_pos rfl]
  simp only [Option.bind_eq_bind, Option.some_bind]
  rw [pOne_cons]
  simp only [parseRat_ratStr, Option.map_some', Option.map_some, Option.bind_eq_bind, Option.some_bind]
  rw [pOne_cons]
  simp [parseRat_ratStr, finishWith]

theorem parseDespike_enc (s f : ℚ) :
    parseDespike (encodeLines (.despike s f)) = some (.despike s f) := by
  simp only [parseDespike, encodeLines, nameOf]
  rw [expectTag_cons, if_pos rfl]
  simp only [Option.bind_eq_bind, Option.some_bind]
  rw [pOne_cons]
  simp only [parseRat_ratStr, Option.map_some', Option.map_some, Option.bind_eq_bind, Option.some_bind]
  rw [pOne_cons]
  simp [parseRat_ratStr, finishWith]

theorem parseFinning_enc (th : ℚ) (it : ℕ) :
    parseFinning (encodeLines (.finning th it)) = some (.finning th it) := by
  simp only [parseFinning, encodeLines, nameOf]
  rw [expectTag_cons, if_pos rfl]
  simp only [Option.bind_eq_bind, Option.some_bind]
  rw [pOne_cons]
  simp only [parseRat_ratStr, Option.map_some', Option.map_some, Option.bind_eq_bind, Option.some_bind]
  rw [pOne_cons]
  simp [parseNat_natStr, finishWith]

theorem parseIntegrate_enc (bds : List (ℚ × ℚ)) (lb : Bool) :
    parseIntegrate (encodeLines (.integrate bds lb)) = some (.integrate bds lb) := by
  have hrest : ∀ r0 rs,
      ([kvLine (("local_baseline").toList) (boolStr lb)] : List Str) = r0 :: rs →
      isPre dashASp r0 = false := by
    intro r0 rs hr
    have h0 : r0 = kvLine (("local_baseline").toList) (boolStr lb) :=
      (((List.cons.injEq _ _ _ _).mp hr.symm)).1
    rw [h0]
    exact isPre_kv_false _ _ _ '-' 'l' rfl rfl (by decide)
  simp only [parseIntegrate, encodeLines, nameOf]
  rw [expectTag_cons, if_pos rfl]
  simp only [Option.bind_eq_bind, Option.some_bind]
  rw [pPairListQ_enc _ _ _ hrest]
  simp only [Option.some_bind]
  rw [pOne_cons]
  simp [parseBool_boolStr, finishWith]

theorem parseMask_enc (ms : List (ℕ × ℕ)) :
    parseMask (encodeLines (.mask ms)) = some (.mask ms) := by
  simp only [parseMask, encodeLines, nameOf]
  rw [expectTag_cons, if_pos rfl]
  simp only [Option.bind_eq_bind, Option.some_bind]
  rw [show encPairListN (("mask").toList) ms =
      encPairListN (("mask").toList) ms ++ [] from (List.append_nil _).symm]
  rw [pPairListN_enc _ _ _ (by intro r0 rs hr; cases hr)]
  simp [finishWith]

theorem parseNormalize_enc (xi : ℚ) (xj : Option ℚ) (lb : Bool)
    (tf : Option (List ℕ)) (fr : Option (ℚ × ℚ)) :
    parseNormalize (encodeLines (.normalize xi xj lb tf fr)) =
      some (.normalize xi xj lb tf fr) := by
  have hrest : ∀ r0 rs, encOptPairQ (("filter_range").toList) fr ++ [] = r0 :: rs →
      isPre dashSp r0 = false := by
    intro r0 rs hr
    cases fr with
    | none =>
      have h0 : r0 = ("filter_range").toList ++ (": ~").toList :=
        (((List.cons.injEq _ _ _ _).mp hr.symm)).1
      rw [h0]
      exact isPre_keyapp_false _ _ _ '-' 'f' rfl rfl (by decide)
    | some p =>
      have h0 : r0 = ("filter_range").toList ++ (":").toList :=
        (((List.cons.injEq _ _ _ _).mp hr.symm)).1
      rw [h0]
      exact isPre_keyapp_false _ _ _ '-' 'f' rfl rfl (by decide)
  simp only [parseNormalize, encodeLines, nameOf, List.cons_append, List.nil_append]
  rw [expectTag_cons, if_pos rfl]
  simp only [Option.bind_eq_bind, Option.some_bind]
  rw [pOne_cons]
  simp only [parseRat_ratStr, Option.map_some', Option.map_some, Option.some_bind]
  cases xj with
  | none =>
    rw [show encOptRat (("xj").toList) none = ("xj").toList ++ (": ~").toList from rfl]
    rw [pOne_tilde, parseOptRat_tilde]
    simp only [Option.map_some', Option.map_some, Option.some_bind]
    rw [pOne_cons]
    simp only [parseBool_boolStr, Option.map_some', Option.map_some, Option.some_bind]
    rw [← List.append_nil (encOptPairQ (("filter_range").toList) fr)]
    rw [pOptListNat_enc _ _ _ hrest]
    simp only [Option.some_bind]
    rw [pOptPairQ_enc]
    simp [finishWith]
  | some q =>
    rw [show encOptRat (("xj").toList) (some q) =
        kvLine (("xj").toList) (ratStr q) from rfl]
    rw [pOne_cons, parseOptRat_ratStr]
    simp only [Option.map_some', Option.map_some, Option.some_bind]
    rw [pOne_cons]
    simp only [parseBool_boolStr, Option.map_some', Option.map_some, Option.some_bind]
    rw [← List.append_nil (encOptPairQ (("filter_range").toList) fr)]
    rw [pOptListNat_enc _ _ _ hrest]
    simp only [Option.some_bind]
    rw [pOptPairQ_enc]
    simp [finishWith]

theorem parseOffset_enc (off : ℚ) (pc : Bool) (tf : Option (List ℕ)) :
    parseOffset (encodeLines (.offset off pc tf)) = some (.offset off pc tf) := by
  simp only [parseOffset, encodeLines, nameOf, List.cons_append, List.nil_append]
  rw [expectTag_cons, if_pos rfl]
  simp only [Option.bind_eq_bind, Option.some_bind]
  rw [pOne_cons]
  simp only [parseRat_ratStr, Option.map_some', Option.map_some, Option.some_bind]
  rw [pOne_cons]
  simp only [parseBool_boolStr, Option.map_some', Option.map_some, Option.some_bind]
  rw [← List.append_nil (encOptListNat (("target_frames").toList) tf)]
  rw [pOptListNat_enc _ _ _ (by intro r0 rs hr; cases hr)]
  simp [finishWith]

theorem parseRamanShift_enc (wl ri : ℚ) (corr : Option ℚ) :
    parseRamanShift (encodeLines (.ramanShift wl ri corr)) =
      some (.ramanShift wl ri corr) := by
  simp only [parseRamanShift, encodeLines, nameOf]
  rw [expectTag_cons, if_pos rfl]
  simp only [Option.bind_eq_bind, Option.some_bind]
  rw [pOne_cons]
  simp only [parseRat_ratStr, Option.map_some', Option.map_some, Option.some_bind]
  rw [pOne_cons]
  simp only [parseRat_ratStr, Option.map_some', Option.map_some, Option.some_bind]
  cases corr with
  | none =>
    rw [show encOptRat (("correction").toList) none =
        ("correction").toList ++ (": ~").toList from rfl]
    rw [pOne_tilde, parseOptRat_tilde]
    simp [finishWith]
  | some q =>
    rw [show encOptRat (("correction").toList) (some q) =
        kvLine (("correction").toList) (ratStr q) from rfl]
    rw [pOne_cons, parseOptRat_ratStr]
    simp [finishWith]

theorem parseReshape_enc (r : ℕ) :
    parseReshape (encodeLines (.reshape r)) = some (.reshape r) := by
  simp only [parseReshape, encodeLines, nameOf]
  rw [expectTag_cons, if_pos rfl]
  simp only [Option.bind_eq_bind, Option.some_bind]
  rw [pOne_cons]
  simp [parseNat_natStr, finishWith]

theorem parseSelect_enc (fr : List ℕ) (inv : Bool) :
    parseSelect (encodeLines (.select fr inv)) = some (.select fr inv) := by
  have hrest : ∀ r0 rs, ([kvLine (("invert").toList) (boolStr inv)] : List Str) = r0 :: rs →
      isPre dashSp r0 = false := by
    intro r0 rs hr
    have h0 : r0 = kvLine (("invert").toList) (boolStr inv) :=
      (((List.cons.injEq _ _ _ _).mp hr.symm)).1
    rw [h0]
    exact isPre_kv_false _ _ _ '-' 'i' rfl rfl (by decide)
  simp only [parseSelect, encodeLines, nameOf]
  rw [expectTag_cons, if_pos rfl]
  simp only [Option.bind_eq_bind, Option.some_bind]
  rw [pListNat_enc _ _ _ hrest]
  simp only [Option.some_bind]
  rw [pOne_cons]
  simp [parseBool_boolStr, finishWith]

theorem parseSubtract_enc (s : ℕ) (m : Option (List ℕ)) (d : Bool) :
    parseSubtract (encodeLines (.subtract s m d)) = some (.subtract s m d) := by
  have hrest : ∀ r0 rs, ([kvLine (("direct").toList) (boolStr d)] : List Str) = r0 :: rs →
      isPre dashSp r0 = false := by
    intro r0 rs hr
    have h0 : r0 = kvLine (("direct").toList) (boolStr d) :=
      (((List.cons.injEq _ _ _ _).mp hr.symm)).1
    rw [h0]
    exact isPre_kv_false _ _ _ '-' 'd' rfl rfl (by decide)
  simp only [parseSubtract, encodeLines, nameOf, List.cons_append]
  rw [expectTag_cons, if_pos rfl]
  simp only [Option.bind_eq_bind, Option.some_bind]
  rw [pOne_cons]
  simp only [parseNat_natStr, Option.map_some', Option.map_some, Option.some_bind]
  rw [pOptListNat_enc _ _ _ hrest]
  simp only [Option.some_bind]
  rw [pOne_cons]
  simp [parseBool_boolStr, finishWith]

theorem tagNameOf_append (n : Str) (h : n.all Char.isAlpha = true) :
    tagNameOf (tagPre ++ n) = some n := by
  unfold tagNameOf
  rw [stripPre_append, Option.some_bind, if_pos h]

theorem findTag_cons (l : Str) (rest : List Str) :
    findTag (l :: rest) =
      match tagNameOf l with
      | some n => some n
      | none => findTag rest := rfl

theorem encodeLines_head (t : Transform) :
    ∃ tl, encodeLines t = (tagPre ++ nameOf t) :: tl := by
  cases t <;> exact ⟨_, rfl⟩

theorem nameOf_alpha (t : Transform) : (nameOf t).all Char.isAlpha = true := by
  cases t <;> simp only [nameOf] <;> decide

theorem findTag_enc (t : Transform) : findTag (encodeLines t) = some (nameOf t) := by
  obtain ⟨tl, htl⟩ := encodeLines_head t
  rw [htl, findTag_cons, tagNameOf_append _ (nameOf_alpha t)]

theorem yaml_segment_enc (t : Transform)
    (hsplit : splitNl (joinNl (encodeLines t)) = encodeLines t)
    (hpar : paramsOk t) :
    yaml_segment_to_transform (joinNl (encodeLines t)) = some t := by
  simp only [yaml_segment_to_transform, hsplit, findTag_enc t]
  cases t with
  | align q =>
    simp only [nameOf]
    rw [if_pos trivial]
    exact parseAlign_enc q
  | append fp c d h =>
    simp only [nameOf]
    rw [if_neg (by decide), if_pos trivial]
    exact parseAppend_enc fp c d h hpar
  | average =>
    simp only [nameOf]
    rw [if_neg (by decide), if_neg (by decide), if_pos trivial]
    exact parseAverage_enc
  | baseline pts st =>
    simp only [nameOf]
    rw [if_neg (by decide), if_neg (by decide), if_neg (by decide), if_neg (by decide),
        if_neg (by decide), if_neg (by decide), if_pos trivial]
    exact parseBaseline_enc pts st
  | calibration pts =>
    simp only [nameOf]
    rw [if_neg (by decide), if_neg (by decide), if_neg (by decide), if_pos trivial]
    exact parseCalibration_enc pts
  | countConversion e cf =>
    simp only [nameOf]
    rw [if_neg (by decide), if_neg (by decide), if_neg (by decide), if_neg (by decide),
        if_pos trivial]
    exact parseCountConversion_enc e cf
  | despike s f =>
    simp only [nameOf]
    rw [if_neg (by decide), if_neg (by decide), if_neg (by decide), if_neg (by decide),
        if_neg (by decide), if_pos trivial]
    exact parseDespike_enc s f
  | finning th it =>
    simp only [nameOf]
    rw [if_neg (by decide), if_neg (by decide), if_neg (by decide), if_neg (by decide),
        if_neg (by decide), if_neg (by decide), if_neg (by decide), if_pos trivial]
    exact parseFinning_enc th it
  | integrate bds lb =>
    simp only [nameOf]
    rw [if_neg (by decide), if_neg (by decide), if_neg (by decide), if_neg (by decide),
        if_neg (by decide), if_neg (by decide), if_neg (by decide), if_neg (by decide),
        if_pos trivial]
    exact parseIntegrate_enc bds lb
  | mask ms =>
    simp only [nameOf]
    rw [if_neg (by decide), if_neg (by decide), if_neg (by decide), if_neg (by decide),
        if_neg (by decide), if_neg (by decide), if_neg (by decide), if_neg (by decide),
        if_neg (by decide), if_pos trivial]
    exact parseMask_enc ms
  | normalize xi xj lb tf fr =>
    simp only [nameOf]
    rw [if_neg (by decide), if_neg (by decide), if_neg (by decide), if_neg (by decide),
        if_neg (by decide), if_neg (by decide), if_neg (by decide), if_neg (by decide),
        if_neg (by decide), if_neg (by decide), if_pos trivial]
    exact parseNormalize_enc xi xj lb tf fr
  | offset off pc tf =>
    simp only [nameOf]
    rw [if_neg (by decide), if_neg (by decide), if_neg (by decide), if_neg (by decide),
        if_neg (by decide), if_neg (by decide), if_neg (by decide), if_neg (by decide),
        if_neg (by decide), if_neg (by decide), if_neg (by decide), if_pos trivial]
    exact parseOffset_enc off pc tf
  | ramanShift wl ri corr =>
    simp only [nameOf]
    rw [if_neg (by decide), if_neg (by decide), if_neg (by decide), if_neg (by decide),
        if_neg (by decide), if_neg (by decide), if_neg (by decide), if_neg (by decide),
        if_neg (by decide), if_neg (by decide), if_neg (by decide), if_neg (by decide),
        if_pos trivial]
    exact parseRamanShift_enc wl ri corr
  | reshape r =>
    simp only [nameOf]
    rw [if_neg (by decide), if_neg (by decide), if_neg (by decide), if_neg (by decide),
        if_neg (by decide), if_neg (by decide), if_neg (by decide), if_neg (by decide),
        if_neg (by decide), if_neg (by decide), if_neg (by decide), if_neg (by decide),
        if_neg (by decide), if_pos trivial]
    exact parseReshape_enc r
  | select fr inv =>
    simp only [nameOf]
    rw [if_neg (by decide), if_neg (by decide), if_neg (by decide), if_neg (by decide),
        if_neg (by decide), if_neg (by decide), if_neg (by decide), if_neg (by decide),
        if_neg (by decide), if_neg (by decide), if_neg (by decide), if_neg (by decide),
        if_neg (by decide), if_neg (by decide), if_pos trivial]
    exact parseSelect_enc fr inv
  | subtract s m d =>
    simp only [nameOf]
    rw [if_neg (by decide), if_neg (by decide), if_neg (by decide), if_neg (by decide),
        if_neg (by decide), if_neg (by decide), if_neg (by decide), if_neg (by decide),
        if_neg (by decide), if_neg (by decide), if_neg (by decide), if_neg (by decide),
        if_neg (by decide), if_neg (by decide), if_neg (by decide), if_pos trivial]
    exact parseSubtract_enc s m d

theorem hasSub_cons (p : Str) (c : Char) (cs : Str) :
    hasSub p (c :: cs) = (isPre p (c :: cs) || hasSub p cs) := rfl

theorem processChunks_cons (c : Str) (cs : List Str) :
    processChunks (c :: cs) =
      if hasSub tagPre (trimStr (removeHashSp c)) then
        (yaml_segment_to_transform (trimStr (removeHashSp c))).bind
          (fun t => (processChunks cs).map (fun l => t :: l))
      else processChunks cs := rfl

theorem hasSub_tagPre_joinNl (t : Transform) :
    hasSub tagPre (joinNl (encodeLines t)) = true := by
  obtain ⟨tl, htl⟩ := encodeLines_head t
  rw [htl]
  obtain ⟨x, hx⟩ := joinNl_cons_ex (tagPre ++ nameOf t) tl
  rw [hx, List.append_assoc]
  exact hasSub_of_isPre _ _ (by decide) (isPre_append _ _)

theorem processChunks_provenance_nl (ts : List Transform) (h : ∀ t ∈ ts, goodT t) :
    processChunks (splitD3 ('\n' :: write_provenance ts)) = some ts := by
  induction ts with
  | nil => rfl
  | cons t ts ih =>
    have hg := h t (List.mem_cons_self t ts)
    obtain ⟨g1, g2, g3, g4, g5⟩ := hg
    have hW : write_provenance (t :: ts) =
        (encodeConfig t ++ delimStr) ++ write_provenance ts := by
      simp [write_provenance]
    have hre : ('\n' :: ((encodeConfig t ++ delimStr) ++ write_provenance ts) : Str) =
        ('\n' :: encodeConfig t) ++ dash3 ++ ('\n' :: write_provenance ts) := by
      have hd : delimStr = dash3 ++ ['\n'] := by decide
      rw [hd]
      simp [List.append_assoc]
    have hsub : hasSub dash3 ('\n' :: encodeConfig t) = false := by
      rw [hasSub_cons,
        isPre_ne_head dash3 ('\n' :: encodeConfig t) '-' '\n' rfl rfl (by decide), g1]
      rfl
    have hlast : ('\n' :: encodeConfig t : Str).getLast? ≠ some '-' := by
      rw [show ('\n' :: encodeConfig t : Str) =
          ('\n' :: joinNl (encodeLines t)) ++ ['\n'] from by simp [encodeConfig]]
      rw [List.getLast?_concat]
      decide
    rw [hW, hre,
      splitD3_append ('\n' :: write_provenance ts) ('\n' :: encodeConfig t) hsub hlast]
    rw [processChunks_cons]
    have hrm : removeHashSp ('\n' :: encodeConfig t) = '\n' :: encodeConfig t := by
      apply removeHashSp_id
      rw [hasSub_cons,
        isPre_ne_head hashSp ('\n' :: encodeConfig t) '#' '\n' rfl rfl (by decide), g2]
      rfl
    have htr : trimStr ('\n' :: encodeConfig t) = joinNl (encodeLines t) := by
      rw [trimStr_cons_nl]
      rw [show (encodeConfig t : Str) = joinNl (encodeLines t) ++ ['\n'] from rfl]
      rw [trimStr_append_nl, g3]
    rw [hrm, htr, hasSub_tagPre_joinNl t, if_pos rfl]
    rw [yaml_segment_enc t g4 g5]
    rw [ih (fun x hx => h x (List.mem_cons_of_mem _ hx))]
    rfl

/-- C2 counterexample: the claim says serializing any pipeline over the
sixteen variants and reconstructing it via `from_yaml_header` restores
the same transformers and parameters.  `from_yaml_header` splits the
provenance text on the raw substring `"---"`, so an `AppendTransform`
whose `filepath` contains `"---"` (path `a---b`) has its own
configuration cut in half: the first fragment fails to deserialize and
reconstruction errors out instead of returning the pipeline. -/
theorem c2_round_trip_broken_by_delimiter_in_path :
    from_yaml_header (write_provenance [.append (some (("a---b").toList)) '#' ',' false]) =
      none ∧
    (none : Option (List Transform)) ≠
      some [.append (some (("a---b").toList)) '#' ',' false] := by
  refine ⟨by decide, by decide⟩

/-- C2 amended: the round trip does hold for every pipeline over the
sixteen variants whose serialized configurations are clean — no stray
`"---"` or `"# "` substring, trim-stable and newline-free parameter
values, and no bare `~` path (the decidable `goodT` predicate; only
`AppendTransform`'s `filepath` can violate it).  Then
`from_yaml_header (write_provenance ts)` reconstructs exactly the same
transformers, in order, with identical parameters. -/
theorem c2_round_trip_amended (ts : List Transform) (h : ∀ t ∈ ts, goodT t) :
    from_yaml_header (write_provenance ts) = some ts := by
  cases ts with
  | nil => rfl
  | cons t ts =>
    have hg := h t (List.mem_cons_self t ts)
    obtain ⟨g1, g2, g3, g4, g5⟩ := hg
    unfold from_yaml_header
    have hW : write_provenance (t :: ts) =
        (encodeConfig t ++ delimStr) ++ write_provenance ts := by
      simp [write_provenance]
    have hre : ((encodeConfig t ++ delimStr) ++ write_provenance ts : Str) =
        encodeConfig t ++ dash3 ++ ('\n' :: write_provenance ts) := by
      have hd : delimStr = dash3 ++ ['\n'] := by decide
      rw [hd]
      simp [List.append_assoc]
    have hlast : (encodeConfig t).getLast? ≠ some '-' := by
      rw [show (encodeConfig t : Str) = joinNl (encodeLines t) ++ ['\n'] from rfl]
      rw [List.getLast?_concat]
      decide
    rw [hW, hre,
      splitD3_append ('\n' :: write_provenance ts) (encodeConfig t) g1 hlast]
    rw [processChunks_cons]
    have hrm : removeHashSp (encodeConfig t) = encodeConfig t := removeHashSp_id _ g2
    have htr : trimStr (encodeConfig t) = joinNl (encodeLines t) := by
      rw [show (encodeConfig t : Str) = joinNl (encodeLines t) ++ ['\n'] from rfl]
      rw [trimStr_append_nl, g3]
    rw [hrm, htr, hasSub_tagPre_joinNl t, if_pos rfl]
    rw [yaml_segment_enc t g4 g5]
    rw [processChunks_provenance_nl ts (fun x hx => h x (List.mem_cons_of_mem _ hx))]
    rfl

/-- C2 amended witness: a concrete two-stage pipeline (average, then
reshape to 2 rows) is clean and round-trips exactly. -/
theorem c2_round_trip_amended_witness :
    (∀ t ∈ ([.average, .reshape 2] : List Transform), goodT t) ∧
    from_yaml_header (write_provenance [.average, .reshape 2]) =
      some [.average, .reshape 2] :=
  ⟨by decide, c2_round_trip_amended [.average, .reshape 2] (by decide)⟩

end Rustman
